import Mathlib

/-!
Shallow embedding of `scanpy/classes/ann_data.py` (and `odict_merge` from
`scanpy/utils.py`): the annotated-matrix container `AnnData`, its bound
record arrays (`BoundRecArr`), index normalization, and the indexing,
transposition and attribute-assignment operations.  Scalar cell values are
modelled as `Val` (an integer or a string, the two element kinds the
development needs); numpy record arrays become association lists of named,
dtype-tagged columns; numpy/python errors become an explicit `Err` type
carried in `Except`.
-/

namespace Scanpy

instance {ε α : Type} [DecidableEq ε] [DecidableEq α] :
    DecidableEq (Except ε α) := fun x y =>
  match x, y with
  | Except.ok a, Except.ok b =>
    match decEq a b with
    | isTrue h => isTrue (congrArg Except.ok h)
    | isFalse h => isFalse (fun c => h (Except.ok.inj c))
  | Except.error a, Except.error b =>
    match decEq a b with
    | isTrue h => isTrue (congrArg Except.error h)
    | isFalse h => isFalse (fun c => h (Except.error.inj c))
  | Except.ok _, Except.error _ => isFalse (fun c => Except.noConfusion c)
  | Except.error _, Except.ok _ => isFalse (fun c => Except.noConfusion c)

/-- A scalar value stored in a matrix cell or an annotation column:
either an integer (numpy integer scalar) or a string. -/
inductive Val where
  | i (n : Int)
  | s (st : String)
  deriving DecidableEq, Repr

instance : Inhabited Val := ⟨Val.i 0⟩

/-- The dtype of an annotation column: numpy `int64` or a string dtype. -/
inductive Dty where
  | int64
  | str
  deriving DecidableEq, Repr

/-- Errors surfaced by the container, mirroring the Python exceptions the
source raises (`ValueError`, `IndexError`, `KeyError`, numpy cast and
duplicate-field errors). -/
inductive Err where
  | badXType (accepted : List String)
  | schemaErr
  | dimMismatch (expected actual : Nat)
  | indexErr
  | castErr (st : String)
  | tooManyEntries (got len : Nat)
  | dupFieldNames
  | cannotDeleteArrayElements
  | keyErr (k : String)
  deriving DecidableEq, Repr

/-- Digit parsing used to model numpy casting a string into an `int64`
field (`int(s)` semantics: optional leading minus, then decimal digits). -/
def parseDigits : List Char → Option Nat
  | [] => Option.none
  | c :: cs =>
    if c.isDigit then
      match cs with
      | [] => some (c.toNat - 48)
      | _ => match parseDigits cs with
        | some n => some ((c.toNat - 48) * 10 ^ cs.length + n)
        | Option.none => Option.none
    else Option.none

/-- Model of `int(s)` for a string being cast into an integer column. -/
def parseIntStr (s : String) : Option Int :=
  match s.data with
  | '-' :: rest => (parseDigits rest).map (fun n => -(n : Int))
  | l => (parseDigits l).map (fun n => (n : Int))

/-- Casting a value into a column of the given dtype, as numpy does when
assigning into a record-array field: integers pass into `int64` columns,
strings must parse as integers (otherwise numpy raises `ValueError`),
and anything can be written into a string column via `str()`. -/
def castTo (d : Dty) (v : Val) : Except Err Val :=
  match d, v with
  | Dty.int64, Val.i n => Except.ok (Val.i n)
  | Dty.int64, Val.s st =>
    match parseIntStr st with
    | some n => Except.ok (Val.i n)
    | Option.none => Except.error (Err.castErr st)
  | Dty.str, Val.i n => Except.ok (Val.s (toString n))
  | Dty.str, Val.s st => Except.ok (Val.s st)

/-- A named column: a dtype together with its values. -/
structure Col where
  dty : Dty
  vals : List Val
  deriving DecidableEq, Repr

/-- dtype inference of `np.asarray(col)` on a list of scalars: an
all-integer list becomes an `int64` column, otherwise numpy falls back to
a string dtype, stringifying any integer elements. -/
def colOfList (vs : List Val) : Col :=
  if vs.all (fun v => match v with | Val.i _ => true | Val.s _ => false) then
    ⟨Dty.int64, vs⟩
  else
    ⟨Dty.str, vs.map (fun v => match v with | Val.i n => Val.s (toString n) | x => x)⟩

/-- The `0 .. n-1` default identifier column (`np.arange(n)`). -/
def arangeCol (n : Nat) : Col :=
  ⟨Dty.int64, (List.range n).map (fun k => Val.i (Int.ofNat k))⟩

def SMP_NAMES : String := "smp_names"
def VAR_NAMES : String := "var_names"

/-- Model of `BoundRecArr`: a numpy record array with an ordered list of
named columns and the name of its identifier column (`_name_col`). -/
structure RecArr where
  nameCol : String
  fields : List (String × Col)
  deriving DecidableEq, Repr

instance : Inhabited RecArr := ⟨⟨SMP_NAMES, []⟩⟩

/-- `len(arr)` of a record array: the length of its first column
(all columns share it by construction). -/
def recLen (r : RecArr) : Nat :=
  match r.fields with
  | [] => 0
  | f :: _ => f.2.vals.length

/-- Field lookup `arr[name]` on a record array. -/
def lookupCol (r : RecArr) (k : String) : Option Col :=
  (r.fields.find? (fun p => p.1 = k)).map (fun p => p.2)

/-- The `columns` property: field names other than the identifier column. -/
def recColumns (r : RecArr) : List String :=
  (r.fields.map (fun p => p.1)).filter (fun n => ¬ n = r.nameCol)

/-- The `source` argument of `BoundRecArr.__new__`: absent, an existing
record array, or a dict-like mapping of column name to values. -/
inductive TblSource where
  | none
  | recarr (r : RecArr)
  | map (m : List (String × List Val))
  deriving Repr

/-- `BoundRecArr.__new__(cls, source, name_col, parent, n_row)`:
from `None` build just the default `0..n_row-1` identifier column; from a
record array copy its columns (the new `_name_col` is recorded but field
names are kept); from a mapping take its columns in order, synthesizing
the identifier column as `np.arange` when absent (length of the first
supplied column, or `n_row` when no column is supplied).  Mismatched
column lengths fail as numpy's broadcast assignment does (length-one
broadcasting is not used by this development and is not modelled);
`np.arange(None)` fails. -/
def mkBoundRecArr (src : TblSource) (nameCol : String) (nRow : Option Nat) :
    Except Err RecArr :=
  match src with
  | TblSource.none =>
    match nRow with
    | some n => Except.ok ⟨nameCol, [(nameCol, arangeCol n)]⟩
    | Option.none => Except.error Err.schemaErr
  | TblSource.recarr r => Except.ok ⟨nameCol, r.fields⟩
  | TblSource.map m =>
    let given : List (String × Col) := m.map (fun p => (p.1, colOfList p.2))
    if m.any (fun p => p.1 = nameCol) then
      match given with
      | [] => Except.error Err.schemaErr
      | f :: _ =>
        if given.all (fun p => p.2.vals.length = f.2.vals.length) then
          Except.ok ⟨nameCol, given⟩
        else Except.error Err.schemaErr
    else
      match given with
      | [] =>
        match nRow with
        | some n => Except.ok ⟨nameCol, [(nameCol, arangeCol n)]⟩
        | Option.none => Except.error Err.schemaErr
      | f :: _ =>
        if given.all (fun p => p.2.vals.length = f.2.vals.length) then
          Except.ok ⟨nameCol, given ++ [(nameCol, arangeCol f.2.vals.length)]⟩
        else Except.error Err.schemaErr

/-- Duplicate-freedom of a list of field names, as checked by numpy's
`dtype.names` setter. -/
def dupFree : List String → Bool
  | [] => true
  | x :: xs => !xs.contains x && dupFree xs

/-- `BoundRecArr.flipped`: copy the table, record the opposite axis's
identifier name, and rename the old identifier field to the new name.
numpy's `dtype.names` setter rejects duplicate field names, which can
arise when the table already had a column named like the opposite axis's
identifier. -/
def flipped (r : RecArr) : Except Err RecArr :=
  let newName := if r.nameCol = VAR_NAMES then SMP_NAMES else VAR_NAMES
  let newFields := r.fields.map
    (fun p => (if p.1 = r.nameCol then newName else p.1, p.2))
  if dupFree (newFields.map (fun p => p.1)) then
    Except.ok ⟨newName, newFields⟩
  else Except.error Err.dupFieldNames

/-- `BoundRecArr.__setitem__` for a single string key: overwrite an
existing column element-for-element (numpy casts the values into the
column's dtype), or append a new column after the "too many entries"
length check (`append_fields`).  The original also re-binds the parent's
attribute on append; in this value-level model the caller installs the
returned replacement table. -/
def recSetItemSingle (r : RecArr) (k : String) (vs : List Val) :
    Except Err RecArr :=
  match lookupCol r k with
  | some col =>
    if vs.length = col.vals.length then
      match vs.mapM (castTo col.dty) with
      | Except.ok cast =>
        Except.ok ⟨r.nameCol,
          r.fields.map (fun p => if p.1 = k then (k, ⟨col.dty, cast⟩) else p)⟩
      | Except.error e => Except.error e
    else Except.error Err.schemaErr
  | Option.none =>
    if vs.length > recLen r then
      Except.error (Err.tooManyEntries vs.length (recLen r))
    else Except.ok ⟨r.nameCol, r.fields ++ [(k, colOfList vs)]⟩

/-- Selecting rows of a record array (`arr[positions]`): every column is
restricted to the given positions, in order. -/
def recSelect (r : RecArr) (idxs : List Nat) : RecArr :=
  ⟨r.nameCol,
   r.fields.map (fun p => (p.1, ⟨p.2.dty, idxs.map (fun i => p.2.vals.getD i default)⟩))⟩

/-- A 2-D dense matrix with explicit shape (numpy arrays keep their shape
even when a dimension is zero, which nested lists alone cannot express). -/
structure Mat where
  r : Nat
  c : Nat
  rows : List (List Val)
  deriving DecidableEq, Repr

/-- Shape/contents agreement of a `Mat`, guaranteed for numpy arrays by
construction. -/
def Mat.WF (m : Mat) : Prop :=
  m.rows.length = m.r ∧ ∀ row ∈ m.rows, row.length = m.c

instance (m : Mat) : Decidable m.WF := by
  unfold Mat.WF; infer_instance

/-- The concrete representation of the `X` argument: a 1-D or 2-D
`np.ndarray`, a `ma.MaskedArray`, a `sp.spmatrix`, or some unrelated
object (carrying the name of its type). -/
inductive XS where
  | nd1 (v : List Val)
  | nd2 (m : Mat)
  | masked (m : Mat)
  | sparse (m : Mat)
  | other (tyName : String)
  deriving Repr

/-- `isinstance(X, np.ndarray)`: masked arrays are ndarray subclasses. -/
def isNdarray : XS → Bool
  | XS.nd1 _ => true
  | XS.nd2 _ => true
  | XS.masked _ => true
  | _ => false

/-- `isinstance(X, ma.MaskedArray)`. -/
def isMaskedArray : XS → Bool
  | XS.masked _ => true
  | _ => false

/-- `isinstance(X, sp.spmatrix)`. -/
def isSpmatrix : XS → Bool
  | XS.sparse _ => true
  | _ => false

/-- The `StorageType` enum (members in definition order). -/
inductive StorageType where
  | Array
  | Masked
  | Sparse
  deriving DecidableEq, Repr

/-- The `for s_type in StorageType: if isinstance(X, s_type.value)` loop:
membership is tested in enum definition order (`Array`, `Masked`,
`Sparse`) and the first match wins; no match raises `ValueError` naming
the three accepted classes. -/
def classify (x : XS) : Except Err StorageType :=
  if isNdarray x then Except.ok StorageType.Array
  else if isMaskedArray x then Except.ok StorageType.Masked
  else if isSpmatrix x then Except.ok StorageType.Sparse
  else Except.error (Err.badXType ["ndarray", "MaskedArray", "spmatrix"])

/-- The 1-D to `N x 1` coercion `X.shape = (X.shape[0], 1)` applied to the
matrix payload; 2-D payloads pass through unchanged. -/
def coerceX : XS → Mat
  | XS.nd1 v => ⟨v.length, 1, v.map (fun x => [x])⟩
  | XS.nd2 m => m
  | XS.masked m => m
  | XS.sparse m => m
  | XS.other _ => ⟨0, 0, []⟩

/-- The container: storage tag, data matrix, sample and variable
annotation tables, and the unstructured `add` mapping. -/
structure AnnData where
  storage_type : StorageType
  X : Mat
  smp : RecArr
  var : RecArr
  add : List (String × Val)
  deriving DecidableEq, Repr

instance : Inhabited AnnData :=
  ⟨⟨StorageType.Array, ⟨0, 0, []⟩, default, default, []⟩⟩

/-- `AnnData.__init__` for a non-dict `X`: classify the storage type,
coerce a 1-D matrix to `N x 1`, build both annotation tables through
`BoundRecArr`, and run `_check_dimensions` (sample table length against
the row count, then feature table length against the column count). -/
def mkAnnData (x : XS) (smpSrc varSrc : TblSource)
    (add : List (String × Val)) : Except Err AnnData := do
  let st ← classify x
  let X := coerceX x
  let smp ← mkBoundRecArr smpSrc SMP_NAMES (some X.r)
  let var ← mkBoundRecArr varSrc VAR_NAMES (some X.c)
  if recLen smp ≠ X.r then Except.error (Err.dimMismatch X.r (recLen smp))
  else if recLen var ≠ X.c then Except.error (Err.dimMismatch X.c (recLen var))
  else Except.ok ⟨st, X, smp, var, add⟩

/-- A scalar index expression element: an integer, a string label, or a
boolean (Python `bool` is an `int` subclass; in `np.fromiter(..., 'int64')`
it is cast to `0`/`1`). -/
inductive Ix where
  | i (n : Int)
  | s (st : String)
  | b (bv : Bool)
  deriving DecidableEq, Repr

/-- One axis selector as supplied by the caller: a scalar (`int`/`str`),
a slice with optional scalar bounds and optional step, a Python sequence
or non-boolean array of scalars (`arr`), a 1-D *boolean ndarray*
(`barr` — kept distinct because scipy's `IndexMixin._check_boolean`
converts it, while a plain Python list of booleans passes through
untouched), or an unsupported expression. -/
inductive Sel where
  | scalar (x : Ix)
  | slice (start stop : Option Ix) (step : Option Int)
  | arr (elts : List Ix)
  | barr (mask : List Bool)
  | unsupported (desc : String)
  deriving Repr

/-- The unrestricted slice `slice(None)` (written `:`). -/
def sliceAll : Sel := Sel.slice Option.none Option.none Option.none

/-- A packed index as received by `__getitem__`/`__setitem__`/
`__delitem__`: a bare string key, a bare row selector, or a
`(row, column)` pair. -/
inductive Index where
  | key (k : String)
  | one (rowSel : Sel)
  | pair (rowSel colSel : Sel)
  deriving Repr

/-- A normalized selector: a slice with (already resolved) integer
bounds, or an integer position array. -/
inductive NSel where
  | slice (start stop step : Option Int)
  | arr (idxs : List Int)
  deriving DecidableEq, Repr

/-- The inner `name_idx` helper: a string is resolved against the
identifier column by `np.where(names == i)[0][0]`, which raises
`IndexError` when the label is absent (the indexed empty array has no
element 0); integers (and booleans, as `int` subclasses) pass through. -/
def nameIdx (names : Col) : Ix → Except Err Int
  | Ix.i n => Except.ok n
  | Ix.b bv => Except.ok (if bv then 1 else 0)
  | Ix.s lbl =>
    match names.vals.findIdx? (fun v => v = Val.s lbl) with
    | some p => Except.ok p
    | Option.none => Except.error Err.indexErr

/-- `AnnData._normalize_index`: slices resolve each bound through
`name_idx` (string stop bounds become inclusive via `stop + 1`); a scalar
`int`/`str` becomes the unit slice `[i, i+1)` with step 1; a sequence or
array is resolved elementwise into an integer position array; anything
else raises `IndexError`. -/
def normalizeIndex (names : Col) : Sel → Except Err NSel
  | Sel.slice ostart ostop ostep => do
    let start ← match ostart with
      | Option.none => pure (Option.none : Option Int)
      | some ix => do pure (some (← nameIdx names ix))
    let stop0 ← match ostop with
      | Option.none => pure (Option.none : Option Int)
      | some ix => do pure (some (← nameIdx names ix))
    let stop := match ostop with
      | some (Ix.s _) => stop0.map (fun v => v + 1)
      | _ => stop0
    Except.ok (NSel.slice start stop ostep)
  | Sel.scalar x => do
    let st ← nameIdx names x
    Except.ok (NSel.slice (some st) (some (st + 1)) (some 1))
  | Sel.arr elts => do
    let idxs ← elts.mapM (nameIdx names)
    Except.ok (NSel.arr idxs)
  | Sel.barr mask => do
    let idxs ← (mask.map Ix.b).mapM (nameIdx names)
    Except.ok (NSel.arr idxs)
  | Sel.unsupported _ => Except.error Err.indexErr

/-- Ascending index enumeration for a positive-step slice: `start`,
`start+step`, ... while below `stop` (both already clamped into
`[0, n]`). -/
def upIdxs : Nat → Int → Int → Int → List Nat
  | 0, _, _, _ => []
  | fuel + 1, start, stop, step =>
    if start < stop then start.toNat :: upIdxs fuel (start + step) stop step
    else []

/-- Descending index enumeration for a negative-step slice (bounds
already clamped into `[-1, n-1]`). -/
def downIdxs : Nat → Int → Int → Int → List Nat
  | 0, _, _, _ => []
  | fuel + 1, start, stop, step =>
    if start > stop then start.toNat :: downIdxs fuel (start + step) stop step
    else []

/-- Clamping of a positive-step slice bound into `[0, n]`: negative
bounds are shifted by the axis length first. -/
def adjUp (n : Nat) (i : Int) : Int :=
  if i < 0 then (if i + n < 0 then 0 else i + n)
  else (if (n : Int) < i then (n : Int) else i)

/-- Clamping of a negative-step slice bound into `[-1, n-1]`. -/
def adjDown (n : Nat) (i : Int) : Int :=
  if i < 0 then (if i + n < -1 then -1 else i + n)
  else (if (n : Int) - 1 < i then (n : Int) - 1 else i)

/-- Python/numpy slice index resolution (`PySlice_AdjustIndices`):
negative bounds are shifted by the axis length and clamped; a zero step
raises; missing bounds default to the ends of the axis. -/
def sliceIndices (n : Nat) (ostart ostop ostep : Option Int) :
    Except Err (List Nat) :=
  let step := ostep.getD 1
  if step = 0 then Except.error Err.schemaErr
  else if step > 0 then
    Except.ok (upIdxs n (adjUp n (ostart.getD 0)) (adjUp n (ostop.getD n)) step)
  else
    Except.ok (downIdxs n (adjDown n (ostart.getD ((n : Int) - 1)))
      (adjDown n (ostop.getD (-(n : Int) - 1))) step)

/-- The positions an axis of length `n` selected by a normalized selector:
slices clamp, integer arrays do numpy fancy indexing (negative positions
count from the end, out-of-range positions raise `IndexError`). -/
def selIndices (n : Nat) : NSel → Except Err (List Nat)
  | NSel.slice a b c => sliceIndices n a b c
  | NSel.arr idxs =>
    idxs.mapM (fun (i : Int) =>
      if 0 ≤ i ∧ i < (n : Int) then Except.ok i.toNat
      else if -(n : Int) ≤ i ∧ i < 0 then Except.ok (i + (n : Int)).toNat
      else Except.error Err.indexErr)

/-- Whether a normalized selector is an integer position array (used to
mirror numpy's pairwise semantics when both axes are arrays). -/
def NSel.isArr : NSel → Bool
  | NSel.arr _ => true
  | _ => false

/-- `smp_names` property: the literal `smp[SMP_NAMES]` field. -/
def smpNamesCol (a : AnnData) : Except Err Col :=
  match lookupCol a.smp SMP_NAMES with
  | some c => Except.ok c
  | Option.none => Except.error (Err.keyErr SMP_NAMES)

/-- `var_names` property: the literal `var[VAR_NAMES]` field. -/
def varNamesCol (a : AnnData) : Except Err Col :=
  match lookupCol a.var VAR_NAMES with
  | some c => Except.ok c
  | Option.none => Except.error (Err.keyErr VAR_NAMES)

/-- `np.nonzero(mask)[0]` on a 1-D boolean array: the positions holding
`True`, in order. -/
def nonzeroIdxs : List Bool → List Nat
  | [] => []
  | b :: bs =>
    if b then 0 :: (nonzeroIdxs bs).map (fun k => k + 1)
    else (nonzeroIdxs bs).map (fun k => k + 1)

/-- `IndexMixin._check_boolean`: a 1-D boolean ndarray selector is
converted to the integer position array `idx.nonzero()[0]` (an int64
ndarray); every other selector — including a plain Python list of
booleans, which has no dtype — is returned unchanged. -/
def checkBoolean : Sel → Sel
  | Sel.barr mask =>
    Sel.arr ((nonzeroIdxs mask).map (fun k => Ix.i (Int.ofNat k)))
  | s => s

/-- `IndexMixin._unpack_index`: a bare selector is a row selector with an
implicit all-columns slice (a bare string key unpacks to a scalar string
row selector — relevant only to `__delitem__`, whose source has no
string special case), and both unpacked selectors then pass through
`_check_boolean`.  The 2-D boolean-matrix branch of `_unpack_index` is
outside the modelled fragment. -/
def unpackIndex : Index → Sel × Sel
  | Index.key k => (checkBoolean (Sel.scalar (Ix.s k)), checkBoolean sliceAll)
  | Index.one rs => (checkBoolean rs, checkBoolean sliceAll)
  | Index.pair rs cs => (checkBoolean rs, checkBoolean cs)

/-- `_normalize_indices`: unpack, then normalize the sample selector
against `smp_names` and the variable selector against `var_names`. -/
def normalizeIndices (a : AnnData) (ix : Index) :
    Except Err (NSel × NSel) := do
  let (smpSel, varSel) := unpackIndex ix
  let nc ← smpNamesCol a
  let vc ← varNamesCol a
  let smpN ← normalizeIndex nc smpSel
  let varN ← normalizeIndex vc varSel
  Except.ok (smpN, varN)

/-- What `__getitem__` returns: an `add` value for a string key, or a
sub-container otherwise. -/
inductive GetRes where
  | addVal (v : Val)
  | sub (a : AnnData)
  deriving DecidableEq, Repr

/-- Ordered-dict lookup. -/
def odictGet (d : List (String × Val)) (k : String) : Option Val :=
  (d.find? (fun p => p.1 = k)).map (fun p => p.2)

/-- Ordered-dict write: overwrite in place when the key exists, append
otherwise. -/
def odictSet (d : List (String × Val)) (k : String) (v : Val) :
    List (String × Val) :=
  if d.any (fun p => p.1 = k) then
    d.map (fun p => if p.1 = k then (k, v) else p)
  else d ++ [(k, v)]

/-- `AnnData.__getitem__`: a string key reads `self.add`; any other index
is normalized, the matrix and both tables are sliced, and a new `AnnData`
is constructed from the three results together with the parent's `add`
entries (keyword re-packing copies the mapping; the copy is modelled at
the reference level separately).  When both axes are integer arrays,
numpy indexes them pairwise, the result is one-dimensional, and the
`var_ann.shape[0] == X.shape[1]` assertion's `X.shape[1]` raises
`IndexError`; that unsupported combination is mapped to the error
directly. -/
def getitem (a : AnnData) (ix : Index) : Except Err GetRes :=
  match ix with
  | Index.key k =>
    match odictGet a.add k with
    | some v => Except.ok (GetRes.addVal v)
    | Option.none => Except.error (Err.keyErr k)
  | _ => do
    let (smpN, varN) ← normalizeIndices a ix
    if smpN.isArr && varN.isArr then Except.error Err.indexErr
    else do
      let ri ← selIndices a.X.r smpN
      let ci ← selIndices a.X.c varN
      let Xs : Mat :=
        ⟨ri.length, ci.length,
         ri.map (fun i => ci.map (fun j => (a.X.rows.getD i []).getD j default))⟩
      let smpAnn := recSelect a.smp ri
      let varAnn := recSelect a.var ci
      let child ← mkAnnData (XS.nd2 Xs) (TblSource.recarr smpAnn)
        (TblSource.recarr varAnn) a.add
      Except.ok (GetRes.sub child)

/-- The matrix after `X[rows, cols] = v`: when both axes are integer
arrays numpy pairs the positions elementwise, otherwise the selected
rectangle is written. -/
def writeMat (m : Mat) (ri ci : List Nat) (pairwise : Bool) (v : Val) : Mat :=
  let cells : List (Nat × Nat) :=
    if pairwise then ri.zip ci
    else ri.flatMap (fun i => ci.map (fun j => (i, j)))
  ⟨m.r, m.c,
   m.rows.mapIdx (fun i row =>
     row.mapIdx (fun j x => if (i, j) ∈ cells then v else x))⟩

/-- `AnnData.__setitem__`: a string key writes into `self.add`; otherwise
the value is written into the matrix at the normalized selector pair and
the annotation tables are untouched. -/
def setitem (a : AnnData) (ix : Index) (v : Val) : Except Err AnnData :=
  match ix with
  | Index.key k => Except.ok { a with add := odictSet a.add k v }
  | _ => do
    let (smpN, varN) ← normalizeIndices a ix
    let ri ← selIndices a.X.r smpN
    let ci ← selIndices a.X.c varN
    Except.ok { a with X := writeMat a.X ri ci (smpN.isArr && varN.isArr) v }

/-- `AnnData.__delitem__`: the indices are normalized (so label-lookup
errors surface first), then `del self.X[smp, var]` runs — numpy arrays do
not support element deletion, so it raises
`ValueError: cannot delete array elements` on every call; the
`self.smp.iloc` / `self.var.iloc` lines behind it are unreachable (and a
numpy recarray has no `iloc` attribute in any case). -/
def delitem (a : AnnData) (ix : Index) : Except Err AnnData := do
  let _ ← normalizeIndices a ix
  Except.error Err.cannotDeleteArrayElements

/-- `AnnData.__setattr__` for `smp` with a dict-like (non-`BoundRecArr`)
value: remember `names_orig = self.smp_names`, coerce the value through
`BoundRecArr(value, SMP_NAMES, self)` (no `n_row`), reject a length that
disagrees with `X.shape[0]`, and if the coerced identifier column equals
the default `np.arange` sequence, write the previous names back into it
(a numpy field assignment, casting into the column's dtype). -/
def setSmpFromMapping (a : AnnData) (m : List (String × List Val)) :
    Except Err AnnData := do
  let namesOrig ← smpNamesCol a
  let value ← mkBoundRecArr (TblSource.map m) SMP_NAMES Option.none
  if recLen value ≠ a.X.r then
    Except.error (Err.dimMismatch a.X.r (recLen value))
  else do
    let value ←
      if (lookupCol value SMP_NAMES).map (fun c => c.vals)
          = some ((List.range a.X.r).map (fun k => Val.i (Int.ofNat k))) then
        recSetItemSingle value SMP_NAMES namesOrig.vals
      else pure value
    Except.ok { a with smp := value }

/-- `X.T` on the modelled dense payload. -/
def matT (m : Mat) : Mat :=
  ⟨m.c, m.r,
   (List.range m.c).map (fun j =>
     (List.range m.r).map (fun i => (m.rows.getD i []).getD j default))⟩

/-- Transposing preserves the concrete representation (an ndarray's `.T`
is an ndarray, a sparse matrix's is sparse), so rebuilding the `X`
argument for the transposed container keeps the storage classification. -/
def xsOfTag (st : StorageType) (m : Mat) : XS :=
  match st with
  | StorageType.Array => XS.nd2 m
  | StorageType.Masked => XS.masked m
  | StorageType.Sparse => XS.sparse m

/-- `AnnData.transpose`: a new container from `X.T`, the flipped variable
table as the new sample table, the flipped sample table as the new
variable table, and the same `add` entries (argument evaluation order:
`var.flipped()` before `smp.flipped()`). -/
def transpose (a : AnnData) : Except Err AnnData := do
  let newSmpSrc ← flipped a.var
  let newVarSrc ← flipped a.smp
  mkAnnData (xsOfTag a.storage_type (matT a.X)) (TblSource.recarr newSmpSrc)
    (TblSource.recarr newVarSrc) a.add

/-- One value of a combined `ddata` mapping: the matrix under `'X'`, a
name list under `'row_names'`/`'smp_names'`/`'col_names'`/`'var_names'`,
a nested annotation mapping under `'row'`/`'smp'`/`'col'`/`'var'`, or a
scalar destined for `add`. -/
inductive DItem where
  | mat (x : XS)
  | vals (vs : List Val)
  | nested (m : List (String × List Val))
  | plain (v : Val)
  deriving Repr

/-- Ordered-dict deletion. -/
def odictDel (d : List (String × DItem)) (k : String) :
    List (String × DItem) :=
  d.filter (fun p => ¬ p.1 = k)

/-- Ordered-dict lookup on a `ddata` mapping. -/
def odictGetD (d : List (String × DItem)) (k : String) : Option DItem :=
  (d.find? (fun p => p.1 = k)).map (fun p => p.2)

/-- The value list stored under a name-list key (only list-valued entries
occur under those keys in this development). -/
def ditemVals : DItem → List Val
  | DItem.vals vs => vs
  | _ => []

/-- `add.get(k, {})` for a nested-annotation key (only mapping-valued
entries occur under those keys in this development). -/
def getNested (d : List (String × DItem)) (k : String) :
    List (String × List Val) :=
  match odictGetD d k with
  | some (DItem.nested m) => m
  | _ => []

/-- `utils.odict_merge(*ds)`: fold every mapping's entries into one
ordered dict, later entries overwriting earlier ones in place. -/
def odictMerge (ds : List (List (String × List Val))) :
    List (String × List Val) :=
  ds.foldl
    (fun acc d =>
      d.foldl
        (fun acc2 p =>
          if acc2.any (fun q => q.1 = p.1) then
            acc2.map (fun q => if q.1 = p.1 then (p.1, p.2) else q)
          else acc2 ++ [p])
        acc)
    []

/-- `AnnData.from_ddata`: extract `X`; move the first-found of
`row_names`/`smp_names` (resp. `col_names`/`var_names`) into the
identifier slot; merge with the nested `row`/`smp` (resp. `col`/`var`)
mappings via `odict_merge`; everything remaining becomes `add`. -/
def fromDdata (ddata : List (String × DItem)) :
    Except Err (XS × List (String × List Val) × List (String × List Val)
      × List (String × DItem)) := do
  let add := ddata
  let X ← match odictGetD add "X" with
    | some (DItem.mat x) => Except.ok x
    | _ => Except.error (Err.keyErr "X")
  let add := odictDel add "X"
  let (smp0, add) :=
    match odictGetD add "row_names" with
    | some it => ([(SMP_NAMES, ditemVals it)], odictDel add "row_names")
    | Option.none =>
      match odictGetD add "smp_names" with
      | some it => ([(SMP_NAMES, ditemVals it)], odictDel add "smp_names")
      | Option.none => ([], add)
  let (var0, add) :=
    match odictGetD add "col_names" with
    | some it => ([(VAR_NAMES, ditemVals it)], odictDel add "col_names")
    | Option.none =>
      match odictGetD add "var_names" with
      | some it => ([(VAR_NAMES, ditemVals it)], odictDel add "var_names")
      | Option.none => ([], add)
  let smp := odictMerge [smp0, getNested add "row", getNested add "smp"]
  let var := odictMerge [var0, getNested add "col", getNested add "var"]
  let add := odictDel (odictDel (odictDel (odictDel add "row") "smp") "col") "var"
  Except.ok (X, smp, var, add)

/-- `AnnData.__init__` for a dict `ddata_or_X`: run `from_ddata`, then the
ordinary construction with the derived mappings; leftover entries become
`add` (the development only stores scalar leftovers). -/
def mkAnnDataDdata (ddata : List (String × DItem)) : Except Err AnnData := do
  let (x, smp, var, rest) ← fromDdata ddata
  mkAnnData x (TblSource.map smp) (TblSource.map var)
    (rest.filterMap (fun p =>
      match p.2 with
      | DItem.plain v => some (p.1, v)
      | _ => Option.none))

/-
Reference-level models.  Two aspects of the source are about object
identity rather than values: `__init__` reshapes a 1-D argument in place
and stores the argument itself (`self.X = X`), and
`AnnData(X, smp, var, **self.add)` re-packs the keyword arguments into a
fresh dict.  They are modelled with explicit heaps of numpy arrays and of
dicts, addressed by allocation index.
-/

/-- A numpy array object: its shape tuple and flat row-major data. -/
structure ArrObj where
  shape : List Nat
  data : List Val
  deriving DecidableEq, Repr

/-- A heap of numpy array objects; an address is an index. -/
structure NpHeap where
  arrs : List ArrObj
  deriving DecidableEq, Repr

/-- A container that remembers which heap object its matrix is. -/
structure AnnDataRef where
  storage_type : StorageType
  xAddr : Nat
  smp : RecArr
  var : RecArr
  deriving DecidableEq, Repr

/-- The `X.shape = (X.shape[0], 1)` / rank-2 check portion of `__init__`
acting on the referenced array object. -/
def reshapeTo2D (o : ArrObj) : Except Err ArrObj :=
  match o.shape with
  | [n] => Except.ok ⟨[n, 1], o.data⟩
  | [r, c] => Except.ok ⟨[r, c], o.data⟩
  | _ => Except.error Err.schemaErr

/-- `AnnData.__init__` for an `np.ndarray` argument passed by reference:
the classification succeeds with `StorageType.Array`, a 1-D shape is
assigned in place on the caller's object, and `self.X = X` stores the
same address.  Sample and variable tables are built as in the value
model. -/
def mkAnnDataRef (h : NpHeap) (xAddr : Nat) (smpSrc varSrc : TblSource) :
    Except Err (NpHeap × AnnDataRef) := do
  match h.arrs.get? xAddr with
  | Option.none => Except.error (Err.keyErr "X")
  | some o => do
    let o2 ← reshapeTo2D o
    let h2 : NpHeap := ⟨h.arrs.set xAddr o2⟩
    let (r, c) := match o2.shape with
      | [a, b] => (a, b)
      | _ => (0, 0)
    let smp ← mkBoundRecArr smpSrc SMP_NAMES (some r)
    let var ← mkBoundRecArr varSrc VAR_NAMES (some c)
    if recLen smp ≠ r then Except.error (Err.dimMismatch r (recLen smp))
    else if recLen var ≠ c then Except.error (Err.dimMismatch c (recLen var))
    else Except.ok (h2, ⟨StorageType.Array, xAddr, smp, var⟩)

/-- A heap of dict objects (the `add` mappings); an address is an index. -/
structure DictHeap where
  dicts : List (List (String × Val))
  deriving DecidableEq, Repr

/-- A container whose `add` mapping lives in the dict heap. -/
structure AnnDataD where
  storage_type : StorageType
  X : Mat
  smp : RecArr
  var : RecArr
  addAddr : Nat
  deriving DecidableEq, Repr

/-- Constructing a container at the reference level: `**add` collects the
keyword arguments into a fresh dict, so a fresh dict holding the entries
is allocated. -/
def mkAnnDataDRef (dh : DictHeap) (x : XS) (smpSrc varSrc : TblSource)
    (addEntries : List (String × Val)) :
    Except Err (DictHeap × AnnDataD) := do
  let core ← mkAnnData x smpSrc varSrc addEntries
  Except.ok (⟨dh.dicts ++ [addEntries]⟩,
    ⟨core.storage_type, core.X, core.smp, core.var, dh.dicts.length⟩)

/-- `__getitem__` with a non-string index at the reference level: the
slicing is the value-level `getitem`, and the child's `add` comes from
`AnnData(X, smp_ann, var_ann, **self.add)` — keyword re-packing allocates
a fresh dict holding the parent's current entries. -/
def getitemDRef (dh : DictHeap) (a : AnnDataD) (ix : Index) :
    Except Err (DictHeap × AnnDataD) := do
  let entries := dh.dicts.getD a.addAddr []
  let res ← getitem ⟨a.storage_type, a.X, a.smp, a.var, entries⟩ ix
  match res with
  | GetRes.addVal _ => Except.error Err.indexErr
  | GetRes.sub c =>
    Except.ok (⟨dh.dicts ++ [entries]⟩,
      ⟨c.storage_type, c.X, c.smp, c.var, dh.dicts.length⟩)

/-- `self[key] = value` with a string key at the reference level: an
in-place write into the dict object the container's `add` refers to. -/
def setAddRef (dh : DictHeap) (a : AnnDataD) (k : String) (v : Val) :
    DictHeap :=
  ⟨dh.dicts.set a.addAddr (odictSet (dh.dicts.getD a.addAddr []) k v)⟩

/-- `self[key]` with a string key at the reference level. -/
def getAddRef (dh : DictHeap) (a : AnnDataD) (k : String) : Option Val :=
  odictGet (dh.dicts.getD a.addAddr []) k

/-
Concrete instances used by the evaluations below.
-/

/-- The rows a `Get` returned (empty for errors or `add` reads). -/
def subRows (e : Except Err GetRes) : List (List Val) :=
  match e with
  | Except.ok (GetRes.sub c) => c.X.rows
  | _ => []

/-- The matrix `[[1,2,3],[4,5,6]]` of the source's tests. -/
def mat23 : Mat :=
  ⟨2, 3, [[Val.i 1, Val.i 2, Val.i 3], [Val.i 4, Val.i 5, Val.i 6]]⟩

/-- `AnnData(np.array([[1,2,3],[4,5,6]]))`. -/
def ad23 : Except Err AnnData :=
  mkAnnData (XS.nd2 mat23) TblSource.none TblSource.none []

/-- `del mat[0, :]` on `ad23`. -/
def delAttempt : Except Err AnnData :=
  ad23.bind (fun a => delitem a (Index.pair (Sel.scalar (Ix.i 0)) sliceAll))

/-- `AnnData(ma.array(...2x2...))`: construction from a masked array. -/
def maskedCtor : Except Err AnnData :=
  mkAnnData (XS.masked ⟨2, 2, [[Val.i 1, Val.i 2], [Val.i 3, Val.i 4]]⟩)
    TblSource.none TblSource.none []

/-- Parent construction, slicing, then a parent-side `add` write, read
back through both parent and child, at the dict-reference level. -/
def c3chain : Except Err (Option Val × Option Val) := do
  let (dh, parent) ← mkAnnDataDRef ⟨[]⟩ (XS.nd2 mat23)
    TblSource.none TblSource.none []
  let (dh2, child) ← getitemDRef dh parent
    (Index.pair (Sel.scalar (Ix.i 0)) sliceAll)
  let dh3 := setAddRef dh2 parent "k" (Val.i 1)
  Except.ok (getAddRef dh3 parent "k", getAddRef dh3 child "k")

/-- A combined mapping holding both an explicit `row_names` list and a
nested `row` mapping with its own `smp_names` entry. -/
def ddataBoth : List (String × DItem) :=
  [("X", DItem.mat (XS.nd2 ⟨2, 2, [[Val.i 1, Val.i 2], [Val.i 3, Val.i 4]]⟩)),
   ("row_names", DItem.vals [Val.s "A", Val.s "B"]),
   ("row", DItem.nested [(SMP_NAMES, [Val.s "C", Val.s "D"])])]

/-- `AnnData([[1,2,3],[4,5,6]], dict(smp_names=['A','B']))`: a container
whose rows carry string labels. -/
def adStrLabels : Except Err AnnData :=
  mkAnnData (XS.nd2 mat23)
    (TblSource.map [(SMP_NAMES, [Val.s "A", Val.s "B"])]) TblSource.none []

/-- `AnnData([[1,2],[3,4]], dict(var_names=['x','y']))`: a validly
constructed container whose sample table carries an auxiliary column
named `var_names`. -/
def adVarNamedCol : Except Err AnnData :=
  mkAnnData (XS.nd2 ⟨2, 2, [[Val.i 1, Val.i 2], [Val.i 3, Val.i 4]]⟩)
    (TblSource.map [(VAR_NAMES, [Val.s "x", Val.s "y"])]) TblSource.none []

/-
Helper lemmas.
-/

theorem arangeCol_length (n : Nat) : (arangeCol n).vals.length = n := by
  show ((List.range n).map (fun k => Val.i (Int.ofNat k))).length = n
  rw [List.length_map, List.length_range]

theorem recLen_arange (name : String) (n : Nat) :
    recLen ⟨name, [(name, arangeCol n)]⟩ = n := by
  show ((List.range n).map (fun k => Val.i (Int.ofNat k))).length = n
  rw [List.length_map, List.length_range]

theorem colOfList_length (vs : List Val) :
    (colOfList vs).vals.length = vs.length := by
  unfold colOfList
  split <;> simp

theorem upIdxs_nil (fuel : Nat) (start stop step : Int) (h : stop ≤ start) :
    upIdxs fuel start stop step = [] := by
  cases fuel with
  | zero => rfl
  | succ n =>
    unfold upIdxs
    rw [if_neg (by omega)]

theorem upIdxs_range (fuel : Nat) :
    ∀ k : Nat, upIdxs fuel (k : Int) ((k : Int) + fuel) 1 = List.range' k fuel := by
  induction fuel with
  | zero =>
    intro k
    apply upIdxs_nil
    omega
  | succ n ih =>
    intro k
    unfold upIdxs
    rw [if_pos (by omega)]
    have h1 : (k : Int).toNat = k := by omega
    have h2 : (k : Int) + 1 = ((k + 1 : Nat) : Int) := by push_cast; ring
    have h3 : (k : Int) + (n + 1 : Nat) = ((k + 1 : Nat) : Int) + n := by
      push_cast; ring
    rw [h1, h3, h2, ih (k + 1), List.range'_succ]

theorem adjUp_zero (n : Nat) : adjUp n 0 = 0 := by
  unfold adjUp
  rw [if_neg (by omega), if_neg (by omega)]

theorem adjUp_n (n : Nat) : adjUp n n = n := by
  unfold adjUp
  rw [if_neg (by omega), if_neg (by omega)]

theorem adjUp_nonneg (n : Nat) (i : Int) : 0 ≤ adjUp n i := by
  unfold adjUp
  split <;> split <;> omega

theorem sliceIndices_all (n : Nat) :
    sliceIndices n Option.none Option.none Option.none
      = Except.ok (List.range n) := by
  unfold sliceIndices
  simp only [Option.getD]
  rw [if_neg (by omega), if_pos (by omega)]
  simp only [adjUp_zero, adjUp_n]
  have h := upIdxs_range n 0
  simp only [Nat.cast_zero, zero_add] at h
  rw [h, List.range_eq_range']

theorem sliceIndices_neg_one (n : Nat) :
    sliceIndices n (some (-1)) (some 0) (some 1) = Except.ok [] := by
  unfold sliceIndices
  simp only [Option.getD]
  rw [if_neg (by omega), if_pos (by omega)]
  simp only [adjUp_zero]
  rw [upIdxs_nil n _ 0 1 (adjUp_nonneg n (-1))]

theorem recLen_recSelect_nil (r : RecArr) : recLen (recSelect r []) = 0 := by
  rcases r with ⟨nc, fl⟩
  cases fl <;> simp [recSelect, recLen]

theorem recLen_recSelect (r : RecArr) (idxs : List Nat) (h : ¬ r.fields = []) :
    recLen (recSelect r idxs) = idxs.length := by
  rcases r with ⟨nc, fl⟩
  cases fl with
  | nil => simp at h
  | cons f fs => simp [recSelect, recLen]

theorem recLen_fields_only (name name2 : String) (fl : List (String × Col)) :
    recLen ⟨name, fl⟩ = recLen ⟨name2, fl⟩ := by
  cases fl <;> rfl

theorem mapM_loop_cast_int (l : List Int) :
    ∀ acc : List Val,
      List.mapM.loop (castTo Dty.int64) (l.map Val.i) acc
        = Except.ok (acc.reverse ++ l.map Val.i) := by
  induction l with
  | nil => intro acc; simp [List.mapM.loop, Pure.pure, Except.pure]
  | cons x xs ih =>
    intro acc
    simp only [List.map_cons, List.mapM.loop, castTo, Bind.bind, Except.bind]
    rw [ih (Val.i x :: acc)]
    simp

theorem mapM_cast_int (l : List Int) :
    (l.map Val.i).mapM (castTo Dty.int64) = Except.ok (l.map Val.i) := by
  show List.mapM.loop (castTo Dty.int64) (l.map Val.i) [] = _
  rw [mapM_loop_cast_int l []]
  rfl

theorem find?_append_name (fl : List (String × Col)) (name : String) (c : Col)
    (h : ∀ p ∈ fl, ¬ p.1 = name) :
    (fl ++ [(name, c)]).find? (fun p => p.1 = name) = some (name, c) := by
  rw [List.find?_append]
  have hn : fl.find? (fun p => decide (p.1 = name)) = Option.none := by
    rw [List.find?_eq_none]
    intro x hx
    simpa using h x hx
  rw [hn]
  simp [List.find?]

theorem getD_map_range {α : Type} (n : Nat) (f : Nat → α) (j : Nat) (d : α)
    (h : j < n) :
    ((List.range n).map f).getD j d = f j := by
  rw [List.getD_eq_getElem?_getD, List.getElem?_map, List.getElem?_range h]
  rfl

theorem map_range_getD {α : Type} (l : List α) (d : α) :
    (List.range l.length).map (fun i => l.getD i d) = l := by
  induction l with
  | nil => rfl
  | cons x xs ih =>
    rw [List.length_cons, List.range_succ_eq_map, List.map_cons, List.map_map]
    rw [show ((fun i => (x :: xs).getD i d) ∘ Nat.succ)
        = (fun i => xs.getD i d) from rfl]
    rw [ih]
    rfl

theorem mat_reconstruct (rows : List (List Val)) (c : Nat)
    (h : ∀ row ∈ rows, row.length = c) :
    (List.range rows.length).map
        (fun i => (List.range c).map (fun j => (rows.getD i []).getD j default))
      = rows := by
  induction rows with
  | nil => rfl
  | cons row rest ih =>
    rw [List.length_cons, List.range_succ_eq_map, List.map_cons, List.map_map]
    have hhd : (List.range c).map
        (fun j => ((row :: rest).getD 0 []).getD j default) = row := by
      rw [show (row :: rest).getD 0 [] = row from rfl]
      rw [← h row (List.mem_cons_self row rest)]
      exact map_range_getD row default
    have htl : (List.range rest.length).map
        ((fun i => (List.range c).map
          (fun j => ((row :: rest).getD i []).getD j default)) ∘ Nat.succ)
        = rest := by
      rw [show ((fun i => (List.range c).map
          (fun j => ((row :: rest).getD i []).getD j default)) ∘ Nat.succ)
          = (fun i => (List.range c).map
            (fun j => (rest.getD i []).getD j default)) from rfl]
      exact ih (fun r hr => h r (List.mem_cons_of_mem row hr))
    rw [hhd, htl]

theorem matT_matT (m : Mat) (h : m.WF) : matT (matT m) = m := by
  obtain ⟨hlen, hrow⟩ := h
  rcases m with ⟨r, c, rows⟩
  suffices hrows : (List.range r).map (fun j2 => (List.range c).map
      (fun i2 => ((matT ⟨r, c, rows⟩).rows.getD i2 []).getD j2 default))
      = rows by
    show Mat.mk r c ((List.range r).map (fun j2 => (List.range c).map
      (fun i2 => ((matT ⟨r, c, rows⟩).rows.getD i2 []).getD j2 default)))
      = Mat.mk r c rows
    rw [hrows]
  have hstep : ∀ j2 ∈ List.range r,
      (List.range c).map (fun i2 =>
        ((matT ⟨r, c, rows⟩).rows.getD i2 []).getD j2 default)
      = (List.range c).map (fun i2 => (rows.getD j2 []).getD i2 default) := by
    intro j2 hj2
    apply List.map_congr_left
    intro i2 hi2
    rw [show (matT ⟨r, c, rows⟩).rows = (List.range c).map
        (fun j => (List.range r).map
          (fun i => (rows.getD i []).getD j default)) from rfl]
    rw [getD_map_range c _ i2 [] (List.mem_range.mp hi2)]
    rw [getD_map_range r _ j2 default (List.mem_range.mp hj2)]
  rw [List.map_congr_left hstep]
  have hl : r = rows.length := hlen.symm
  subst hl
  exact mat_reconstruct rows c hrow

theorem contains_false_of (l : List String) (x : String)
    (h : ∀ y ∈ l, ¬ y = x) : l.contains x = false := by
  induction l with
  | nil => rfl
  | cons a as ih =>
    have ha : ¬ x = a := fun hc =>
      h a (List.mem_cons_self a as) hc.symm
    simp only [List.contains_cons]
    rw [ih (fun y hy => h y (List.mem_cons_of_mem a hy))]
    simp [ha]

theorem contains_true_of_mem (l : List String) (x : String) (h : x ∈ l) :
    l.contains x = true := by
  induction l with
  | nil => exact absurd h (List.not_mem_nil x)
  | cons a as ih =>
    rw [List.contains_cons]
    rcases List.mem_cons.mp h with h0 | h1
    · rw [h0]
      simp
    · rw [ih h1]
      simp

theorem dupFree_rename (names : List String) (old new : String)
    (hd : dupFree names = true) (hn : ∀ y ∈ names, ¬ y = new) :
    dupFree (names.map (fun x => if x = old then new else x)) = true := by
  induction names with
  | nil => rfl
  | cons a as ih =>
    have hda : as.contains a = false := by
      have h' := hd
      simp only [dupFree, Bool.and_eq_true, Bool.not_eq_true'] at h'
      exact h'.1
    have hdas : dupFree as = true := by
      have h' := hd
      simp only [dupFree, Bool.and_eq_true] at h'
      exact h'.2
    have hnas : ∀ y ∈ as, ¬ y = new :=
      fun y hy => hn y (List.mem_cons_of_mem a hy)
    have hcontains : (as.map (fun x => if x = old then new else x)).contains
        (if a = old then new else a) = false := by
      apply contains_false_of
      intro y hy
      rw [List.mem_map] at hy
      obtain ⟨z, hz, rfl⟩ := hy
      intro heq
      by_cases hzo : z = old <;> by_cases hao : a = old
      · have hza : z = a := hzo.trans hao.symm
        rw [hza] at hz
        rw [contains_true_of_mem as a hz] at hda
        exact Bool.noConfusion hda
      · rw [if_pos hzo, if_neg hao] at heq
        exact hn a (List.mem_cons_self a as) heq.symm
      · rw [if_neg hzo, if_pos hao] at heq
        exact hnas z hz heq
      · rw [if_neg hzo, if_neg hao] at heq
        rw [heq] at hz
        rw [contains_true_of_mem as a hz] at hda
        exact Bool.noConfusion hda
    simp only [List.map_cons, dupFree, Bool.and_eq_true, Bool.not_eq_true']
    exact ⟨hcontains, ih hdas hnas⟩

theorem rename_rename (fl : List (String × Col)) (old new : String)
    (h : ∀ p ∈ fl, ¬ p.1 = new) :
    (fl.map (fun p => (if p.1 = old then new else p.1, p.2))).map
        (fun p => (if p.1 = new then old else p.1, p.2))
      = fl.map (fun p => (if p.1 = old then old else p.1, p.2)) := by
  rw [List.map_map]
  apply List.map_congr_left
  intro p hp
  by_cases hpo : p.1 = old
  · simp [hpo]
  · simp only [Function.comp]
    rw [if_neg hpo, if_neg (h p hp), if_neg hpo]

theorem rename_id (fl : List (String × Col)) (old : String) :
    fl.map (fun p => (if p.1 = old then old else p.1, p.2)) = fl := by
  have h' : ∀ p ∈ fl, ((if p.1 = old then old else p.1, p.2) : String × Col)
      = id p := by
    intro p hp
    by_cases hpo : p.1 = old
    · rw [if_pos hpo, ← hpo]
      rfl
    · rw [if_neg hpo]
      rfl
  rw [List.map_congr_left h', List.map_id]

theorem recLen_map_snd (n1 n2 : String) (f : String → String)
    (fl : List (String × Col)) :
    recLen ⟨n1, fl.map (fun p => (f p.1, p.2))⟩ = recLen ⟨n2, fl⟩ := by
  cases fl <;> rfl

theorem nonzeroIdxs_mem (mask : List Bool) (j : Nat) :
    j ∈ nonzeroIdxs mask ↔ j < mask.length ∧ mask.getD j false = true := by
  induction mask generalizing j with
  | nil => simp [nonzeroIdxs]
  | cons b bs ih =>
    cases j with
    | zero =>
      cases b <;> simp [nonzeroIdxs]
    | succ k =>
      cases b <;>
        simp [nonzeroIdxs, List.mem_map, ih k, Nat.succ_lt_succ_iff]

theorem mapM_loop_nameIdx_int (names : Col) (l : List Nat) :
    ∀ acc : List Int,
      List.mapM.loop (nameIdx names) (l.map (fun k => Ix.i (Int.ofNat k))) acc
        = Except.ok (acc.reverse ++ l.map (fun k => Int.ofNat k)) := by
  induction l with
  | nil => intro acc; simp [List.mapM.loop, Pure.pure, Except.pure]
  | cons x xs ih =>
    intro acc
    simp only [List.map_cons, List.mapM.loop, nameIdx, Bind.bind, Except.bind]
    rw [ih (Int.ofNat x :: acc)]
    simp

theorem normalizeIndex_intArr (names : Col) (l : List Nat) :
    normalizeIndex names (Sel.arr (l.map (fun k => Ix.i (Int.ofNat k))))
      = Except.ok (NSel.arr (l.map (fun k => Int.ofNat k))) := by
  have hm : List.mapM.loop (nameIdx names)
      (l.map (fun k => Ix.i (Int.ofNat k))) []
      = Except.ok (l.map (fun k => Int.ofNat k)) := by
    simpa using mapM_loop_nameIdx_int names l []
  simp only [normalizeIndex, List.mapM, Bind.bind, Except.bind, hm]

theorem selIndices_natArr_loop (n : Nat) (l : List Nat)
    (hb : ∀ p ∈ l, p < n) :
    ∀ acc : List Nat,
      List.mapM.loop (fun (i : Int) =>
          if 0 ≤ i ∧ i < (n : Int) then Except.ok i.toNat
          else if -(n : Int) ≤ i ∧ i < 0 then Except.ok (i + (n : Int)).toNat
          else Except.error Err.indexErr)
        (l.map (fun k => Int.ofNat k)) acc
        = Except.ok (acc.reverse ++ l) := by
  induction l with
  | nil => intro acc; simp [List.mapM.loop, Pure.pure, Except.pure]
  | cons x xs ih =>
    intro acc
    have hx : x < n := hb x (List.mem_cons_self x xs)
    simp only [List.map_cons, List.mapM.loop]
    rw [if_pos (by
      rw [show Int.ofNat x = (x : Int) from rfl]
      constructor <;> omega)]
    simp only [Bind.bind, Except.bind]
    rw [show (Int.ofNat x).toNat = x from rfl]
    rw [ih (fun p hp => hb p (List.mem_cons_of_mem x hp)) (x :: acc)]
    simp

theorem selIndices_natArr (n : Nat) (l : List Nat) (hb : ∀ p ∈ l, p < n) :
    selIndices n (NSel.arr (l.map (fun k => Int.ofNat k))) = Except.ok l := by
  show List.mapM _ _ = _
  simpa [List.mapM] using selIndices_natArr_loop n l hb []

theorem rows_select_cols (rows : List (List Val)) (l : List Nat) :
    (List.range rows.length).map
        (fun i => l.map (fun j => (rows.getD i []).getD j default))
      = rows.map (fun row => l.map (fun j => row.getD j default)) := by
  induction rows with
  | nil => rfl
  | cons row rest ih =>
    rw [List.length_cons, List.range_succ_eq_map, List.map_cons, List.map_map,
      List.map_cons]
    rw [show ((fun i => l.map (fun j => ((row :: rest).getD i []).getD j default))
        ∘ Nat.succ)
        = (fun i => l.map (fun j => (rest.getD i []).getD j default)) from rfl]
    rw [ih]
    rw [show (row :: rest).getD 0 [] = row from rfl]

theorem getD_mem_of_lt {α : Type} (l : List α) (i : Nat) (d : α)
    (h : i < l.length) : l.getD i d ∈ l := by
  rw [List.getD_eq_getElem?_getD, List.getElem?_eq_getElem h]
  exact List.getElem_mem h

theorem rows_select_rows (rows : List (List Val)) (c : Nat) (l : List Nat)
    (hlen : ∀ row ∈ rows, row.length = c) (hb : ∀ i ∈ l, i < rows.length) :
    l.map (fun i =>
        (List.range c).map (fun j => (rows.getD i []).getD j default))
      = l.map (fun i => rows.getD i []) := by
  apply List.map_congr_left
  intro i hi
  have hm : rows.getD i [] ∈ rows := getD_mem_of_lt rows i [] (hb i hi)
  rw [← hlen _ hm]
  exact map_range_getD (rows.getD i []) default

theorem recLen_rename (n1 n2 old new : String) (fl : List (String × Col)) :
    recLen ⟨n1, fl.map (fun p => (if p.1 = old then new else p.1, p.2))⟩
      = recLen ⟨n2, fl⟩ := by
  cases fl <;> rfl

theorem classify_xsOfTag (st : StorageType) (m : Mat)
    (h : ¬ st = StorageType.Masked) :
    classify (xsOfTag st m) = Except.ok st := by
  cases st with
  | Array => rfl
  | Masked => exact absurd rfl h
  | Sparse => rfl

theorem coerceX_xsOfTag (st : StorageType) (m : Mat) :
    coerceX (xsOfTag st m) = m := by
  cases st <;> rfl

theorem mkAnnData_recarr (st : StorageType) (m : Mat) (s v : RecArr)
    (add : List (String × Val)) (h0 : ¬ st = StorageType.Masked)
    (hs : recLen s = m.r) (hv : recLen v = m.c) :
    mkAnnData (xsOfTag st m) (TblSource.recarr s) (TblSource.recarr v) add
      = Except.ok ⟨st, m, ⟨SMP_NAMES, s.fields⟩, ⟨VAR_NAMES, v.fields⟩, add⟩ := by
  unfold mkAnnData
  simp only [classify_xsOfTag st m h0, coerceX_xsOfTag, mkBoundRecArr,
    Bind.bind, Except.bind]
  rw [if_neg (show ¬ recLen ⟨SMP_NAMES, s.fields⟩ ≠ m.r from by
    show ¬ recLen s ≠ m.r
    omega)]
  rw [if_neg (show ¬ recLen ⟨VAR_NAMES, v.fields⟩ ≠ m.c from by
    show ¬ recLen v ≠ m.c
    omega)]

/-- A dict heap holding one extra mapping, used as construction state. -/
def c3wHeap : DictHeap := ⟨[[("k0", Val.i 7)]]⟩

/-- A parent container whose `add` lives at address 0 of `c3wHeap`. -/
def c3wParent : AnnDataD :=
  ⟨StorageType.Array, mat23, ⟨SMP_NAMES, [(SMP_NAMES, arangeCol 2)]⟩,
   ⟨VAR_NAMES, [(VAR_NAMES, arangeCol 3)]⟩, 0⟩

/-- The dict heap after slicing `c3wParent`: a fresh copy was appended. -/
def c3wHeap2 : DictHeap := ⟨[[("k0", Val.i 7)], [("k0", Val.i 7)]]⟩

/-- The sub-container `c3wParent[0, :]` with its fresh `add` address. -/
def c3wChild : AnnDataD :=
  ⟨StorageType.Array, ⟨1, 3, [[Val.i 1, Val.i 2, Val.i 3]]⟩,
   ⟨SMP_NAMES, [(SMP_NAMES, ⟨Dty.int64, [Val.i 0]⟩)]⟩,
   ⟨VAR_NAMES, [(VAR_NAMES, ⟨Dty.int64, [Val.i 0, Val.i 1, Val.i 2]⟩)]⟩, 1⟩

/-- `AnnData([[1,2,3],[4,5,6]], dict(smp_names=['A','B']),
dict(var_names=['a','b','c']))` as a value. -/
def c7w : AnnData :=
  ⟨StorageType.Array, mat23,
   ⟨SMP_NAMES, [(SMP_NAMES, ⟨Dty.str, [Val.s "A", Val.s "B"]⟩)]⟩,
   ⟨VAR_NAMES, [(VAR_NAMES, ⟨Dty.str, [Val.s "a", Val.s "b", Val.s "c"]⟩)]⟩, []⟩

/-- `AnnData([[1,2,3],[4,5,6]], dict(smp_names=[5,7]))` as a value: rows
carrying integer labels. -/
def c6w : AnnData :=
  ⟨StorageType.Array, mat23,
   ⟨SMP_NAMES, [(SMP_NAMES, ⟨Dty.int64, [Val.i 5, Val.i 7]⟩)]⟩,
   ⟨VAR_NAMES, [(VAR_NAMES, arangeCol 3)]⟩, []⟩

/-- `AnnData([[1,2,3],[4,5,6]])` as a value (default labels). -/
def c10w : AnnData :=
  ⟨StorageType.Array, mat23, ⟨SMP_NAMES, [(SMP_NAMES, arangeCol 2)]⟩,
   ⟨VAR_NAMES, [(VAR_NAMES, arangeCol 3)]⟩, []⟩

/-
Theorems for the claims.
-/

/-- C1: a 1-D boolean ndarray selector performs ordinary boolean
masking on either axis.  `_unpack_index` (inherited from scipy's
`IndexMixin`) runs `_check_boolean`, which converts the mask to the
integer position array `mask.nonzero()[0]` — exactly the positions
holding `True` (first conjunct) — before `_normalize_index` sees it, so
`Get` keeps precisely the rows (or columns) at those positions: the
returned submatrix consists of the true-position columns of every row
(column case), resp. the true-position rows (row case). -/
theorem c1_boolean_mask (a : AnnData) (nc vc : Col) (mask : List Bool)
    (h1 : lookupCol a.smp SMP_NAMES = some nc)
    (h2 : lookupCol a.var VAR_NAMES = some vc)
    (h3 : a.X.WF)
    (h4 : ¬ a.smp.fields = [])
    (h5 : ¬ a.var.fields = []) :
    (∀ j : Nat, j ∈ nonzeroIdxs mask
        ↔ j < mask.length ∧ mask.getD j false = true) ∧
      (mask.length = a.X.c →
        ∃ c1 : AnnData,
          getitem a (Index.pair sliceAll (Sel.barr mask))
              = Except.ok (GetRes.sub c1) ∧
            c1.X.r = a.X.r ∧ c1.X.c = (nonzeroIdxs mask).length ∧
            c1.X.rows = a.X.rows.map (fun row =>
              (nonzeroIdxs mask).map (fun j => row.getD j default))) ∧
      (mask.length = a.X.r →
        ∃ c2 : AnnData,
          getitem a (Index.pair (Sel.barr mask) sliceAll)
              = Except.ok (GetRes.sub c2) ∧
            c2.X.r = (nonzeroIdxs mask).length ∧ c2.X.c = a.X.c ∧
            c2.X.rows = (nonzeroIdxs mask).map
              (fun i => a.X.rows.getD i [])) := by
  obtain ⟨hlen, hrow⟩ := h3
  have hsm : smpNamesCol a = Except.ok nc := by simp [smpNamesCol, h1]
  have hvm : varNamesCol a = Except.ok vc := by simp [varNamesCol, h2]
  refine ⟨fun j => nonzeroIdxs_mem mask j, ?_, ?_⟩
  · intro hc
    have hb : ∀ p ∈ nonzeroIdxs mask, p < a.X.c := fun p hp =>
      hc ▸ ((nonzeroIdxs_mem mask p).mp hp).1
    have hns : normalizeIndex nc (Sel.slice Option.none Option.none Option.none)
        = Except.ok (NSel.slice Option.none Option.none Option.none) := rfl
    have hni : normalizeIndices a (Index.pair sliceAll (Sel.barr mask))
        = Except.ok (NSel.slice Option.none Option.none Option.none,
            NSel.arr ((nonzeroIdxs mask).map (fun k => Int.ofNat k))) := by
      simp only [normalizeIndices, unpackIndex, checkBoolean, sliceAll,
        Bind.bind, Except.bind, hsm, hvm, hns,
        normalizeIndex_intArr vc (nonzeroIdxs mask)]
    have hri : selIndices a.X.r
        (NSel.slice Option.none Option.none Option.none)
        = Except.ok (List.range a.X.r) := by
      simp only [selIndices, sliceIndices_all]
    have hci := selIndices_natArr a.X.c (nonzeroIdxs mask) hb
    have hsel1 : recLen (⟨SMP_NAMES,
        (recSelect a.smp (List.range a.X.r)).fields⟩ : RecArr)
        = (List.range a.X.r).length := by
      rw [recLen_fields_only SMP_NAMES (recSelect a.smp (List.range a.X.r)).nameCol]
      exact recLen_recSelect a.smp (List.range a.X.r) h4
    have hsel2 : recLen (⟨VAR_NAMES,
        (recSelect a.var (nonzeroIdxs mask)).fields⟩ : RecArr)
        = (nonzeroIdxs mask).length := by
      rw [recLen_fields_only VAR_NAMES (recSelect a.var (nonzeroIdxs mask)).nameCol]
      exact recLen_recSelect a.var (nonzeroIdxs mask) h5
    refine ⟨⟨StorageType.Array,
      ⟨(List.range a.X.r).length, (nonzeroIdxs mask).length,
       (List.range a.X.r).map (fun i => (nonzeroIdxs mask).map
         (fun j => (a.X.rows.getD i []).getD j default))⟩,
      ⟨SMP_NAMES, (recSelect a.smp (List.range a.X.r)).fields⟩,
      ⟨VAR_NAMES, (recSelect a.var (nonzeroIdxs mask)).fields⟩, a.add⟩,
      ?_, by simp, rfl, ?_⟩
    · simp only [getitem, hni, Bind.bind, Except.bind]
      simp only [NSel.isArr, Bool.false_and, Bool.false_eq_true, if_neg]
      simp only [hri, hci]
      simp [mkAnnData, classify, isNdarray, coerceX, mkBoundRecArr,
        Bind.bind, Except.bind, hsel1, hsel2, recLen_fields_only]
    · show (List.range a.X.r).map (fun i => (nonzeroIdxs mask).map
        (fun j => (a.X.rows.getD i []).getD j default))
        = a.X.rows.map (fun row =>
          (nonzeroIdxs mask).map (fun j => row.getD j default))
      rw [← hlen, rows_select_cols]
  · intro hr
    have hb : ∀ p ∈ nonzeroIdxs mask, p < a.X.r := fun p hp =>
      hr ▸ ((nonzeroIdxs_mem mask p).mp hp).1
    have hns : normalizeIndex vc (Sel.slice Option.none Option.none Option.none)
        = Except.ok (NSel.slice Option.none Option.none Option.none) := rfl
    have hni : normalizeIndices a (Index.pair (Sel.barr mask) sliceAll)
        = Except.ok (NSel.arr ((nonzeroIdxs mask).map (fun k => Int.ofNat k)),
            NSel.slice Option.none Option.none Option.none) := by
      simp only [normalizeIndices, unpackIndex, checkBoolean, sliceAll,
        Bind.bind, Except.bind, hsm, hvm, hns,
        normalizeIndex_intArr nc (nonzeroIdxs mask)]
    have hri := selIndices_natArr a.X.r (nonzeroIdxs mask) hb
    have hci : selIndices a.X.c
        (NSel.slice Option.none Option.none Option.none)
        = Except.ok (List.range a.X.c) := by
      simp only [selIndices, sliceIndices_all]
    have hsel1 : recLen (⟨SMP_NAMES,
        (recSelect a.smp (nonzeroIdxs mask)).fields⟩ : RecArr)
        = (nonzeroIdxs mask).length := by
      rw [recLen_fields_only SMP_NAMES (recSelect a.smp (nonzeroIdxs mask)).nameCol]
      exact recLen_recSelect a.smp (nonzeroIdxs mask) h4
    have hsel2 : recLen (⟨VAR_NAMES,
        (recSelect a.var (List.range a.X.c)).fields⟩ : RecArr)
        = (List.range a.X.c).length := by
      rw [recLen_fields_only VAR_NAMES (recSelect a.var (List.range a.X.c)).nameCol]
      exact recLen_recSelect a.var (List.range a.X.c) h5
    refine ⟨⟨StorageType.Array,
      ⟨(nonzeroIdxs mask).length, (List.range a.X.c).length,
       (nonzeroIdxs mask).map (fun i => (List.range a.X.c).map
         (fun j => (a.X.rows.getD i []).getD j default))⟩,
      ⟨SMP_NAMES, (recSelect a.smp (nonzeroIdxs mask)).fields⟩,
      ⟨VAR_NAMES, (recSelect a.var (List.range a.X.c)).fields⟩, a.add⟩,
      ?_, rfl, by simp, ?_⟩
    · simp only [getitem, hni, Bind.bind, Except.bind]
      simp only [NSel.isArr, Bool.and_false, Bool.false_eq_true, if_neg]
      simp only [hri, hci]
      simp [mkAnnData, classify, isNdarray, coerceX, mkBoundRecArr,
        Bind.bind, Except.bind, hsel1, hsel2, recLen_fields_only]
    · show (nonzeroIdxs mask).map (fun i => (List.range a.X.c).map
        (fun j => (a.X.rows.getD i []).getD j default))
        = (nonzeroIdxs mask).map (fun i => a.X.rows.getD i [])
      exact rows_select_rows a.X.rows a.X.c (nonzeroIdxs mask) hrow
        (fun i hi => by rw [hlen]; exact hb i hi)

/-- C5 (code bug): `del mat[0, :]` — a `Delete` whose column selector is
the unrestricted slice — does not shrink the matrix and tables; it fails,
because `del self.X[smp, var]` is an element deletion on a numpy array,
which numpy rejects on every call (`ValueError: cannot delete array
elements`); the table-deletion lines behind it are unreachable. -/
theorem c5_delete_always_raises :
    delAttempt = Except.error Err.cannotDeleteArrayElements ∧
      ad23.toBool = true := by
  constructor
  · decide
  · decide

/-- C2 counterexample: constructing from a masked 2x2 array records the
storage tag `Array` (dense), not `Masked`: `ma.MaskedArray` is a subclass
of `np.ndarray` and the classification loop tests `Array` first. -/
theorem c2_masked_gets_dense_tag :
    maskedCtor.map (fun a => a.storage_type)
        = Except.ok StorageType.Array ∧
      ¬ StorageType.Array = StorageType.Masked := by
  constructor
  · decide
  · decide

/-- C3 counterexample: after `child = parent[0, :]`, writing the extra
key `'k'` through the parent is visible through the parent but not
through the child — the child's `add` is a fresh dict made by keyword
re-packing, not the parent's mapping shared by reference. -/
theorem c3_write_not_shared :
    c3chain = Except.ok (some (Val.i 1), Option.none) := by
  decide

/-- C4 counterexample: constructing from a combined mapping holding both
`row_names=['A','B']` and a nested `row` mapping with
`smp_names=['C','D']` yields the identifier column `['C','D']`: in
`odict_merge(smp, add.get('row', {}), ...)` the nested mapping is merged
after (and therefore over) the explicit list, so the explicit list does
not take precedence. -/
theorem c4_nested_overwrites_explicit :
    (mkAnnDataDdata ddataBoth).map (fun a => lookupCol a.smp SMP_NAMES)
        = Except.ok (some ⟨Dty.str, [Val.s "C", Val.s "D"]⟩) ∧
      ¬ [Val.s "C", Val.s "D"] = [Val.s "A", Val.s "B"] := by
  constructor
  · decide
  · decide

/-- C6 counterexample: on a container whose rows carry the string labels
`['A','B']`, assigning `smp = dict(a=[1,2])` (no identifier list) does
not preserve the labels — it fails: the coerced table's `smp_names`
column is the default `arange` with dtype `int64`, and writing the
previous string labels back into it makes numpy cast `'A'` to an
integer, which raises. -/
theorem c6_string_labels_cast_error :
    adStrLabels.bind (fun a => setSmpFromMapping a [("a", [Val.i 1, Val.i 2])])
        = Except.error (Err.castErr "A") ∧
      adStrLabels.toBool = true := by
  constructor
  · decide
  · decide

/-- C7 counterexample: a validly constructed container whose sample table
carries an auxiliary column named `var_names` cannot be transposed at
all, let alone round-tripped: flipping the sample table renames
`smp_names` to `var_names`, producing duplicate field names, which
numpy's `dtype.names` setter rejects. -/
theorem c7_duplicate_name_breaks_transpose :
    adVarNamedCol.toBool = true ∧
      adVarNamedCol.bind transpose = Except.error Err.dupFieldNames := by
  constructor
  · decide
  · decide

/-- C2 (amended): classification tries the `StorageType` members in
definition order, so a dense array records `Array` and a masked array
also records `Array` (a `MaskedArray` is structurally an `ndarray`, the
first match); a sparse matrix records `Sparse`; a source matching none of
the three fails with an error naming all three accepted
representations. -/
theorem c2_storage_priority (m : Mat) (s : String) :
    (mkAnnData (XS.nd2 m) TblSource.none TblSource.none []).map
        (fun a => a.storage_type) = Except.ok StorageType.Array ∧
      (mkAnnData (XS.masked m) TblSource.none TblSource.none []).map
        (fun a => a.storage_type) = Except.ok StorageType.Array ∧
      (mkAnnData (XS.sparse m) TblSource.none TblSource.none []).map
        (fun a => a.storage_type) = Except.ok StorageType.Sparse ∧
      mkAnnData (XS.other s) TblSource.none TblSource.none []
        = Except.error (Err.badXType ["ndarray", "MaskedArray", "spmatrix"]) := by
  refine ⟨?_, ?_, ?_, ?_⟩ <;>
    simp [mkAnnData, classify, isNdarray, isMaskedArray, isSpmatrix, coerceX,
      mkBoundRecArr, recLen_arange, Bind.bind, Except.bind, Except.map]

/-- C9: constructing from a 1-D dense array of length `n` reshapes the
caller's own array object to `n x 1` in place (the heap cell at the
argument's address now holds shape `[n, 1]` with the same data) and the
container's matrix is that same object (`xAddr` is the argument's
address) — construction mutates its argument and the matrix aliases it. -/
theorem c9_inplace_reshape_and_alias (h : NpHeap) (addr n : Nat) (d : List Val)
    (hh : h.arrs.get? addr = some ⟨[n], d⟩) :
    mkAnnDataRef h addr TblSource.none TblSource.none
        = Except.ok (⟨h.arrs.set addr ⟨[n, 1], d⟩⟩,
            ⟨StorageType.Array, addr, ⟨SMP_NAMES, [(SMP_NAMES, arangeCol n)]⟩,
             ⟨VAR_NAMES, [(VAR_NAMES, arangeCol 1)]⟩⟩) ∧
      (h.arrs.set addr ⟨[n, 1], d⟩).get? addr = some ⟨[n, 1], d⟩ := by
  have hlt : addr < h.arrs.length := by
    by_contra hc
    rw [List.get?_eq_none.mpr (by omega)] at hh
    exact Option.noConfusion hh
  have hh2 : h.arrs[addr]? = some (⟨[n], d⟩ : ArrObj) := by
    rw [← List.get?_eq_getElem?]
    exact hh
  constructor
  · simp [mkAnnDataRef, hh2, reshapeTo2D, mkBoundRecArr, recLen_arange,
      Bind.bind, Except.bind]
  · rw [List.get?_eq_getElem?]
    rw [List.getElem?_set_eq_of_lt _ (by simpa using hlt)]

/-- C10: an integer selector `i` normalizes to the unit slice
`[i, i+1)` with step 1 (for every `i`, including negatives), and
consequently indexing the row axis with `-1` — which normalizes to
`slice(-1, 0, 1)`, an empty range — yields a zero-row sub-container with
the column axis intact, rather than the last row or an error. -/
theorem c10_neg_one_selects_empty (names : Col) (i : Int) (a : AnnData)
    (nc vc : Col)
    (h1 : lookupCol a.smp SMP_NAMES = some nc)
    (h2 : lookupCol a.var VAR_NAMES = some vc)
    (h3 : ¬ a.var.fields = []) :
    normalizeIndex names (Sel.scalar (Ix.i i))
        = Except.ok (NSel.slice (some i) (some (i + 1)) (some 1)) ∧
      ∃ c : AnnData,
        getitem a (Index.pair (Sel.scalar (Ix.i (-1))) sliceAll)
            = Except.ok (GetRes.sub c) ∧
          c.X.r = 0 ∧ c.X.c = a.X.c ∧ recLen c.smp = 0 ∧
          recLen c.var = a.X.c := by
  constructor
  · rfl
  · have hsm : smpNamesCol a = Except.ok nc := by
      simp [smpNamesCol, h1]
    have hvm : varNamesCol a = Except.ok vc := by
      simp [varNamesCol, h2]
    have hni : normalizeIndices a (Index.pair (Sel.scalar (Ix.i (-1))) sliceAll)
        = Except.ok (NSel.slice (some (-1)) (some 0) (some 1),
            NSel.slice Option.none Option.none Option.none) := by
      simp [normalizeIndices, unpackIndex, checkBoolean, hsm, hvm,
        normalizeIndex, nameIdx, sliceAll, Bind.bind, Except.bind, Pure.pure,
        Except.pure]
    have hsel0 : recLen (⟨SMP_NAMES, (recSelect a.smp []).fields⟩ : RecArr) = 0 := by
      rw [recLen_fields_only SMP_NAMES (recSelect a.smp []).nameCol]
      exact recLen_recSelect_nil a.smp
    have hselc : recLen
        (⟨VAR_NAMES, (recSelect a.var (List.range a.X.c)).fields⟩ : RecArr)
        = a.X.c := by
      rw [recLen_fields_only VAR_NAMES (recSelect a.var (List.range a.X.c)).nameCol]
      rw [recLen_recSelect a.var (List.range a.X.c) h3, List.length_range]
    refine ⟨⟨StorageType.Array, ⟨0, (List.range a.X.c).length, []⟩,
      ⟨SMP_NAMES, (recSelect a.smp []).fields⟩,
      ⟨VAR_NAMES, (recSelect a.var (List.range a.X.c)).fields⟩, a.add⟩,
      ?_, rfl, by simp, hsel0, by simpa using hselc⟩
    simp only [getitem, hni, Bind.bind, Except.bind]
    simp only [NSel.isArr, Bool.and_self, Bool.false_and, if_neg]
    simp only [selIndices, sliceIndices_neg_one, sliceIndices_all]
    simp [mkAnnData, classify, isNdarray, coerceX, mkBoundRecArr,
      Bind.bind, Except.bind, hsel0, hselc, recLen_fields_only]

/-- C3 (amended): a successful `Get` with a non-string index gives the
sub-container an extra mapping that is a fresh shallow copy of the
parent's — allocated at a new address, holding the parent's entries as of
slicing time — so a subsequent write of an extra key through the parent
is not visible through the sub-container (and symmetrically). -/
theorem c3_extra_shallow_copy (dh : DictHeap) (a : AnnDataD) (ix : Index)
    (dh2 : DictHeap) (c : AnnDataD)
    (ha : a.addAddr < dh.dicts.length)
    (hg : getitemDRef dh a ix = Except.ok (dh2, c)) :
    c.addAddr = dh.dicts.length ∧
      ¬ c.addAddr = a.addAddr ∧
      dh2.dicts.getD c.addAddr [] = dh.dicts.getD a.addAddr [] ∧
      ∀ (k : String) (v : Val),
        getAddRef (setAddRef dh2 a k v) c k = getAddRef dh2 c k := by
  cases hres : getitem ⟨a.storage_type, a.X, a.smp, a.var,
      dh.dicts.getD a.addAddr []⟩ ix with
  | error e =>
    rw [getitemDRef, hres] at hg
    exact absurd hg (by simp [Bind.bind, Except.bind])
  | ok res =>
    cases res with
    | addVal v =>
      rw [getitemDRef, hres] at hg
      exact absurd hg (by simp [Bind.bind, Except.bind])
    | sub c0 =>
      rw [getitemDRef, hres] at hg
      simp only [Bind.bind, Except.bind, Except.ok.injEq, Prod.mk.injEq] at hg
      obtain ⟨hdh2, hc⟩ := hg
      subst hdh2
      subst hc
      refine ⟨rfl, by simp; omega, ?_, ?_⟩
      · simp only [List.getD_eq_getElem?_getD]
        rw [List.getElem?_concat_length]
        simp
      · intro k v
        unfold getAddRef setAddRef
        simp only [List.getD_eq_getElem?_getD]
        rw [List.getElem?_set_ne (by simp; omega)]

/-- C4 (amended): when a combined mapping supplies both an explicit
`row_names` identifier list and a nested `row` annotation mapping with
its own `smp_names` entry, the nested mapping's entry takes precedence:
`odict_merge` merges the nested mappings after the explicit list and
later entries overwrite earlier ones, so the constructed table's
identifier column holds the nested mapping's values (the column axis is
handled by the same merge). -/
theorem c4_nested_identifier_wins (mm : Mat) (l1 l2 : List Val)
    (h : l2.length = mm.r) :
    ∃ a : AnnData,
      mkAnnDataDdata
          [("X", DItem.mat (XS.nd2 mm)),
           ("row_names", DItem.vals l1),
           ("row", DItem.nested [(SMP_NAMES, l2)])]
        = Except.ok a ∧
      a.smp = ⟨SMP_NAMES, [(SMP_NAMES, colOfList l2)]⟩ := by
  refine ⟨⟨StorageType.Array, mm, ⟨SMP_NAMES, [(SMP_NAMES, colOfList l2)]⟩,
    ⟨VAR_NAMES, [(VAR_NAMES, arangeCol mm.c)]⟩, []⟩, ?_, rfl⟩
  have hfd : fromDdata
      [("X", DItem.mat (XS.nd2 mm)),
       ("row_names", DItem.vals l1),
       ("row", DItem.nested [(SMP_NAMES, l2)])]
      = Except.ok (XS.nd2 mm, [(SMP_NAMES, l2)], [], []) := rfl
  rw [mkAnnDataDdata, hfd]
  simp [mkAnnData, classify, isNdarray, coerceX, mkBoundRecArr, recLen,
    colOfList_length, h, recLen_arange, arangeCol_length, Bind.bind, Except.bind]

/-- C8: when a string label is absent from the row axis's identifier
column, `Get`, `Set` and `Delete` using it — directly, as a slice stop
bound, or as an element of a list selector — all fail with the label
lookup `IndexError` (and likewise on the column axis, shown here for the
direct form); none of them silently returns a result.  The lookup
`np.where(names == i)[0][0]` raises because the found-indices array is
empty. -/
theorem c8_unknown_label_errors (a : AnnData) (nc vc : Col) (lbl : String)
    (v : Val)
    (h1 : lookupCol a.smp SMP_NAMES = some nc)
    (h2 : nc.vals.findIdx? (fun x => x = Val.s lbl) = Option.none)
    (h3 : lookupCol a.var VAR_NAMES = some vc)
    (h4 : vc.vals.findIdx? (fun x => x = Val.s lbl) = Option.none) :
    getitem a (Index.pair (Sel.scalar (Ix.s lbl)) sliceAll)
        = Except.error Err.indexErr ∧
      getitem a (Index.pair (Sel.slice Option.none (some (Ix.s lbl)) Option.none)
        sliceAll) = Except.error Err.indexErr ∧
      getitem a (Index.pair (Sel.arr [Ix.s lbl]) sliceAll)
        = Except.error Err.indexErr ∧
      getitem a (Index.pair sliceAll (Sel.scalar (Ix.s lbl)))
        = Except.error Err.indexErr ∧
      setitem a (Index.pair (Sel.scalar (Ix.s lbl)) sliceAll) v
        = Except.error Err.indexErr ∧
      setitem a (Index.pair (Sel.slice Option.none (some (Ix.s lbl)) Option.none)
        sliceAll) v = Except.error Err.indexErr ∧
      setitem a (Index.pair (Sel.arr [Ix.s lbl]) sliceAll) v
        = Except.error Err.indexErr ∧
      setitem a (Index.pair sliceAll (Sel.scalar (Ix.s lbl))) v
        = Except.error Err.indexErr ∧
      delitem a (Index.pair (Sel.scalar (Ix.s lbl)) sliceAll)
        = Except.error Err.indexErr ∧
      delitem a (Index.pair (Sel.slice Option.none (some (Ix.s lbl)) Option.none)
        sliceAll) = Except.error Err.indexErr ∧
      delitem a (Index.pair (Sel.arr [Ix.s lbl]) sliceAll)
        = Except.error Err.indexErr ∧
      delitem a (Index.pair sliceAll (Sel.scalar (Ix.s lbl)))
        = Except.error Err.indexErr := by
  have hs : smpNamesCol a = Except.ok nc := by simp [smpNamesCol, h1]
  have hv : varNamesCol a = Except.ok vc := by simp [varNamesCol, h3]
  have hne : nameIdx nc (Ix.s lbl) = Except.error Err.indexErr := by
    simp [nameIdx, h2]
  have hve : nameIdx vc (Ix.s lbl) = Except.error Err.indexErr := by
    simp [nameIdx, h4]
  have hloop : List.mapM.loop (nameIdx nc) [Ix.s lbl] []
      = Except.error Err.indexErr := by
    simp [List.mapM.loop, hne, Bind.bind, Except.bind]
  refine ⟨?_, ?_, ?_, ?_, ?_, ?_, ?_, ?_, ?_, ?_, ?_, ?_⟩ <;>
    simp [getitem, setitem, delitem, normalizeIndices, unpackIndex,
      checkBoolean, normalizeIndex, nameIdx, sliceAll, hs, hv, hne, hve, h2,
      h4, hloop, Bind.bind, Except.bind, Pure.pure, Except.pure]

/-- C6 (amended): on a container whose rows carry integer-valued labels,
assigning to the row-table attribute a mapping with no identifier list
(so the coerced identifier column is exactly the default `0..N-1`
sequence) yields a table whose identifier column holds the previous
labels — writing them back into the synthesized `int64` column succeeds
because integers cast losslessly — while the auxiliary columns come from
the new mapping.  (With non-numeric string labels the same write fails
with a cast error instead; see the counterexample.) -/
theorem c6_preserves_integer_labels (a : AnnData) (prev : List Int) (d : Dty)
    (m : List (String × List Val))
    (h1 : lookupCol a.smp SMP_NAMES = some ⟨d, prev.map Val.i⟩)
    (h2 : ∀ p ∈ m, ¬ p.1 = SMP_NAMES)
    (h3 : ¬ m = [])
    (h4 : ∀ p ∈ m, p.2.length = a.X.r)
    (h5 : prev.length = a.X.r) :
    setSmpFromMapping a m
      = Except.ok { a with smp :=
          ⟨SMP_NAMES, m.map (fun p => (p.1, colOfList p.2))
            ++ [(SMP_NAMES, ⟨Dty.int64, prev.map Val.i⟩)]⟩ } := by
  cases m with
  | nil => exact absurd rfl h3
  | cons p0 mt =>
    have hsn : smpNamesCol a = Except.ok ⟨d, prev.map Val.i⟩ := by
      simp [smpNamesCol, h1]
    have hany : (p0 :: mt).any (fun p => p.1 = SMP_NAMES) = false := by
      rw [List.any_eq_false]
      intro p hp
      simpa using h2 p hp
    have hlen0 : (colOfList p0.2).vals.length = a.X.r := by
      rw [colOfList_length]
      exact h4 p0 (List.mem_cons_self p0 mt)
    have hall : ((p0.1, colOfList p0.2) :: mt.map (fun p => (p.1, colOfList p.2))).all
        (fun p => p.2.vals.length = (colOfList p0.2).vals.length) = true := by
      rw [List.all_eq_true]
      intro q hq
      rcases List.mem_cons.mp hq with hq0 | hq1
      · simp [hq0]
      · rw [List.mem_map] at hq1
        obtain ⟨p, hp, rfl⟩ := hq1
        simp only [colOfList_length, hlen0]
        simp [h4 p (List.mem_cons_of_mem p0 hp)]
    have hmk : mkBoundRecArr (TblSource.map (p0 :: mt)) SMP_NAMES Option.none
        = Except.ok ⟨SMP_NAMES, (p0 :: mt).map (fun p => (p.1, colOfList p.2))
            ++ [(SMP_NAMES, arangeCol a.X.r)]⟩ := by
      simp only [mkBoundRecArr, hany, Bool.false_eq_true, if_false,
        List.map_cons]
      rw [if_pos hall, hlen0]
    have hrl : recLen ⟨SMP_NAMES, (p0 :: mt).map (fun p => (p.1, colOfList p.2))
        ++ [(SMP_NAMES, arangeCol a.X.r)]⟩ = a.X.r := by
      show (colOfList p0.2).vals.length = a.X.r
      exact hlen0
    have hkeys : ∀ q ∈ (p0 :: mt).map (fun p => (p.1, colOfList p.2)),
        ¬ q.1 = SMP_NAMES := by
      intro q hq
      rw [List.mem_map] at hq
      obtain ⟨p, hp, rfl⟩ := hq
      exact h2 p hp
    have hlook : lookupCol ⟨SMP_NAMES,
        (p0 :: mt).map (fun p => (p.1, colOfList p.2))
          ++ [(SMP_NAMES, arangeCol a.X.r)]⟩ SMP_NAMES
        = some (arangeCol a.X.r) := by
      unfold lookupCol
      rw [find?_append_name _ _ _ hkeys]
      rfl
    have hfields : ((p0 :: mt).map (fun p => (p.1, colOfList p.2))
          ++ [(SMP_NAMES, arangeCol a.X.r)]).map
          (fun p => if p.1 = SMP_NAMES
            then (SMP_NAMES, (⟨Dty.int64, prev.map Val.i⟩ : Col)) else p)
        = (p0 :: mt).map (fun p => (p.1, colOfList p.2))
          ++ [(SMP_NAMES, ⟨Dty.int64, prev.map Val.i⟩)] := by
      rw [List.map_append]
      congr 1
      · have h' : ∀ q ∈ (p0 :: mt).map (fun p => (p.1, colOfList p.2)),
            (if q.1 = SMP_NAMES
              then (SMP_NAMES, (⟨Dty.int64, prev.map Val.i⟩ : Col)) else q)
              = id q := by
          intro q hq
          rw [if_neg (hkeys q hq)]
          rfl
        rw [List.map_congr_left h', List.map_id]
    have hset : recSetItemSingle ⟨SMP_NAMES,
        (p0 :: mt).map (fun p => (p.1, colOfList p.2))
          ++ [(SMP_NAMES, arangeCol a.X.r)]⟩ SMP_NAMES (prev.map Val.i)
        = Except.ok ⟨SMP_NAMES, (p0 :: mt).map (fun p => (p.1, colOfList p.2))
            ++ [(SMP_NAMES, ⟨Dty.int64, prev.map Val.i⟩)]⟩ := by
      unfold recSetItemSingle
      simp only [hlook]
      rw [if_pos (by rw [List.length_map, arangeCol_length, h5])]
      simp only [show (arangeCol a.X.r).dty = Dty.int64 from rfl,
        mapM_cast_int]
      rw [hfields]
    unfold setSmpFromMapping
    rw [hsn]
    simp only [Bind.bind, Except.bind, hmk, hrl]
    rw [if_neg (by omega)]
    rw [hlook]
    have hcond : Option.map (fun c => c.vals) (some (arangeCol a.X.r))
        = some ((List.range a.X.r).map (fun k => Val.i (Int.ofNat k))) := rfl
    rw [if_pos hcond]
    simp only [hset]

/-- C7 (amended): for every validly constructed container — identifier
columns named by their own axes, duplicate-free field names, well-formed
shape data, tables in lockstep with the matrix, a storage tag actually
produced by classification (never `Masked`, see C2), and, additionally,
no auxiliary column named with the *opposite* axis's reserved identifier
name — transposing twice returns exactly the original container (matrix,
both tables, identifier sequences, extras), and transposing is
non-mutating (the embedding is pure: `transpose` reads `a` and builds a
new container; `a` itself is unchanged by evaluation).  The added
hypothesis is forced by the counterexample: a table carrying a column
named like the opposite axis's identifier makes the flip produce
duplicate field names and `transpose` raises instead. -/
theorem c7_double_transpose_id (a : AnnData)
    (h0 : ¬ a.storage_type = StorageType.Masked)
    (h1 : a.smp.nameCol = SMP_NAMES)
    (h2 : a.var.nameCol = VAR_NAMES)
    (h3 : dupFree (a.smp.fields.map (fun p => p.1)) = true)
    (h4 : dupFree (a.var.fields.map (fun p => p.1)) = true)
    (h5 : ∀ p ∈ a.smp.fields, ¬ p.1 = VAR_NAMES)
    (h6 : ∀ p ∈ a.var.fields, ¬ p.1 = SMP_NAMES)
    (h7 : a.X.WF)
    (h8 : recLen a.smp = a.X.r)
    (h9 : recLen a.var = a.X.c) :
    ∃ t : AnnData, transpose a = Except.ok t ∧ transpose t = Except.ok a := by
  have hsv : ¬ SMP_NAMES = VAR_NAMES := by decide
  have hfv : flipped a.var = Except.ok ⟨SMP_NAMES,
      a.var.fields.map (fun p =>
        (if p.1 = VAR_NAMES then SMP_NAMES else p.1, p.2))⟩ := by
    unfold flipped
    simp only [h2, eq_self_iff_true, if_true]
    have hdup : dupFree ((a.var.fields.map (fun p =>
        (if p.1 = VAR_NAMES then SMP_NAMES else p.1, p.2))).map
        (fun p => p.1)) = true := by
      rw [List.map_map]
      have heq : ((fun p => p.1) ∘ (fun (p : String × Col) =>
          ((if p.1 = VAR_NAMES then SMP_NAMES else p.1 : String), p.2)))
          = (fun x => if x = VAR_NAMES then SMP_NAMES else x)
            ∘ (fun (p : String × Col) => p.1) := rfl
      rw [heq, ← List.map_map]
      exact dupFree_rename _ VAR_NAMES SMP_NAMES h4 (by
        intro y hy
        rw [List.mem_map] at hy
        obtain ⟨p, hp, rfl⟩ := hy
        exact h6 p hp)
    rw [if_pos hdup]
  have hfs : flipped a.smp = Except.ok ⟨VAR_NAMES,
      a.smp.fields.map (fun p =>
        (if p.1 = SMP_NAMES then VAR_NAMES else p.1, p.2))⟩ := by
    unfold flipped
    simp only [h1]
    rw [show (if SMP_NAMES = VAR_NAMES then SMP_NAMES else VAR_NAMES)
      = VAR_NAMES from if_neg hsv]
    have hdup : dupFree ((a.smp.fields.map (fun p =>
        (if p.1 = SMP_NAMES then VAR_NAMES else p.1, p.2))).map
        (fun p => p.1)) = true := by
      rw [List.map_map]
      have heq : ((fun p => p.1) ∘ (fun (p : String × Col) =>
          ((if p.1 = SMP_NAMES then VAR_NAMES else p.1 : String), p.2)))
          = (fun x => if x = SMP_NAMES then VAR_NAMES else x)
            ∘ (fun (p : String × Col) => p.1) := rfl
      rw [heq, ← List.map_map]
      exact dupFree_rename _ SMP_NAMES VAR_NAMES h3 (by
        intro y hy
        rw [List.mem_map] at hy
        obtain ⟨p, hp, rfl⟩ := hy
        exact h5 p hp)
    rw [if_pos hdup]
  have hrl1 : recLen (⟨SMP_NAMES, a.var.fields.map (fun p =>
      (if p.1 = VAR_NAMES then SMP_NAMES else p.1, p.2))⟩ : RecArr)
      = (matT a.X).r := by
    rw [recLen_rename SMP_NAMES a.var.nameCol VAR_NAMES SMP_NAMES a.var.fields]
    show recLen a.var = a.X.c
    exact h9
  have hrl2 : recLen (⟨VAR_NAMES, a.smp.fields.map (fun p =>
      (if p.1 = SMP_NAMES then VAR_NAMES else p.1, p.2))⟩ : RecArr)
      = (matT a.X).c := by
    rw [recLen_rename VAR_NAMES a.smp.nameCol SMP_NAMES VAR_NAMES a.smp.fields]
    show recLen a.smp = a.X.r
    exact h8
  have htrans1 : transpose a = Except.ok ⟨a.storage_type, matT a.X,
      ⟨SMP_NAMES, a.var.fields.map (fun p =>
        (if p.1 = VAR_NAMES then SMP_NAMES else p.1, p.2))⟩,
      ⟨VAR_NAMES, a.smp.fields.map (fun p =>
        (if p.1 = SMP_NAMES then VAR_NAMES else p.1, p.2))⟩, a.add⟩ := by
    unfold transpose
    simp only [Bind.bind, Except.bind, hfv, hfs]
    exact mkAnnData_recarr a.storage_type (matT a.X) _ _ a.add h0 hrl1 hrl2
  refine ⟨_, htrans1, ?_⟩
  have hfv2 : flipped ⟨VAR_NAMES, a.smp.fields.map (fun p =>
      (if p.1 = SMP_NAMES then VAR_NAMES else p.1, p.2))⟩
      = Except.ok ⟨SMP_NAMES, a.smp.fields⟩ := by
    unfold flipped
    simp only [eq_self_iff_true, if_true]
    rw [rename_rename a.smp.fields SMP_NAMES VAR_NAMES h5,
      rename_id a.smp.fields SMP_NAMES]
    rw [if_pos h3]
  have hfs2 : flipped ⟨SMP_NAMES, a.var.fields.map (fun p =>
      (if p.1 = VAR_NAMES then SMP_NAMES else p.1, p.2))⟩
      = Except.ok ⟨VAR_NAMES, a.var.fields⟩ := by
    unfold flipped
    simp only
    rw [show (if SMP_NAMES = VAR_NAMES then SMP_NAMES else VAR_NAMES)
      = VAR_NAMES from if_neg hsv]
    rw [rename_rename a.var.fields VAR_NAMES SMP_NAMES h6,
      rename_id a.var.fields VAR_NAMES]
    rw [if_pos h4]
  show transpose ⟨a.storage_type, matT a.X, _, _, a.add⟩ = Except.ok a
  unfold transpose
  simp only [Bind.bind, Except.bind, hfv2, hfs2]
  have hfin := mkAnnData_recarr a.storage_type (matT (matT a.X))
    ⟨SMP_NAMES, a.smp.fields⟩ ⟨VAR_NAMES, a.var.fields⟩ a.add h0
    (by rw [matT_matT a.X h7]; show recLen a.smp = a.X.r; exact h8)
    (by rw [matT_matT a.X h7]; show recLen a.var = a.X.c; exact h9)
  rw [hfin, matT_matT a.X h7]
  have hsmp : (⟨SMP_NAMES, a.smp.fields⟩ : RecArr) = a.smp := by
    rw [← h1]
  have hvar : (⟨VAR_NAMES, a.var.fields⟩ : RecArr) = a.var := by
    rw [← h2]
  rw [hsmp, hvar]

/-- Witness for C1 at the claim's own example: on
`AnnData([[1,2,3],[4,5,6]])`, selecting all rows with the boolean column
mask `[False, True, True]` (a boolean ndarray) returns `[[2,3],[5,6]]`,
matching `test_get_subset`. -/
theorem c1_boolean_mask_witness :
    (lookupCol c10w.smp SMP_NAMES = some (arangeCol 2)) ∧
      (lookupCol c10w.var VAR_NAMES = some (arangeCol 3)) ∧
      c10w.X.WF ∧
      (¬ c10w.smp.fields = []) ∧
      (¬ c10w.var.fields = []) ∧
      ([false, true, true].length = c10w.X.c →
        ∃ c1 : AnnData,
          getitem c10w (Index.pair sliceAll (Sel.barr [false, true, true]))
              = Except.ok (GetRes.sub c1) ∧
            c1.X.r = c10w.X.r ∧
            c1.X.c = (nonzeroIdxs [false, true, true]).length ∧
            c1.X.rows = c10w.X.rows.map (fun row =>
              (nonzeroIdxs [false, true, true]).map
                (fun j => row.getD j default))) ∧
      subRows (getitem c10w (Index.pair sliceAll (Sel.barr [false, true, true])))
        = [[Val.i 2, Val.i 3], [Val.i 5, Val.i 6]] :=
  ⟨by decide, by decide, by decide, by decide, by decide,
   (c1_boolean_mask c10w (arangeCol 2) (arangeCol 3) [false, true, true]
     (by decide) (by decide) (by decide) (by decide) (by decide)).2.1,
   by decide⟩

/-- Witness for C3's amended theorem: a concrete slice of a concrete
parent, with the parent-side write invisible through the child. -/
theorem c3_extra_shallow_copy_witness :
    c3wParent.addAddr < c3wHeap.dicts.length ∧
      getitemDRef c3wHeap c3wParent (Index.pair (Sel.scalar (Ix.i 0)) sliceAll)
        = Except.ok (c3wHeap2, c3wChild) ∧
      c3wChild.addAddr = c3wHeap.dicts.length ∧
      ¬ c3wChild.addAddr = c3wParent.addAddr ∧
      c3wHeap2.dicts.getD c3wChild.addAddr []
        = c3wHeap.dicts.getD c3wParent.addAddr [] ∧
      getAddRef (setAddRef c3wHeap2 c3wParent "k" (Val.i 1)) c3wChild "k"
        = getAddRef c3wHeap2 c3wChild "k" :=
  have h := c3_extra_shallow_copy c3wHeap c3wParent
    (Index.pair (Sel.scalar (Ix.i 0)) sliceAll) c3wHeap2 c3wChild
    (by decide) (by decide)
  ⟨by decide, by decide, h.1, h.2.1, h.2.2.1, h.2.2.2 "k" (Val.i 1)⟩

/-- Witness for C4's amended theorem at `row_names=['A','B']`,
`row={smp_names: ['C','D']}` over a 2x2 matrix. -/
theorem c4_nested_identifier_wins_witness :
    ([Val.s "C", Val.s "D"].length
        = (⟨2, 2, [[Val.i 1, Val.i 2], [Val.i 3, Val.i 4]]⟩ : Mat).r) ∧
      (∃ a : AnnData,
        mkAnnDataDdata
            [("X", DItem.mat (XS.nd2 ⟨2, 2, [[Val.i 1, Val.i 2],
              [Val.i 3, Val.i 4]]⟩)),
             ("row_names", DItem.vals [Val.s "A", Val.s "B"]),
             ("row", DItem.nested [(SMP_NAMES, [Val.s "C", Val.s "D"])])]
          = Except.ok a ∧
        a.smp = ⟨SMP_NAMES,
          [(SMP_NAMES, colOfList [Val.s "C", Val.s "D"])]⟩) :=
  ⟨by decide,
   c4_nested_identifier_wins ⟨2, 2, [[Val.i 1, Val.i 2], [Val.i 3, Val.i 4]]⟩
     [Val.s "A", Val.s "B"] [Val.s "C", Val.s "D"] (by decide)⟩

/-- Witness for C6's amended theorem: integer labels `[5,7]`, new mapping
`dict(a=[1,2])` — labels survive, the auxiliary column comes from the
mapping. -/
theorem c6_preserves_integer_labels_witness :
    (lookupCol c6w.smp SMP_NAMES
        = some ⟨Dty.int64, ([5, 7] : List Int).map Val.i⟩) ∧
      (∀ p ∈ ([("a", [Val.i 1, Val.i 2])] : List (String × List Val)),
        ¬ p.1 = SMP_NAMES) ∧
      (¬ ([("a", [Val.i 1, Val.i 2])] : List (String × List Val)) = []) ∧
      (∀ p ∈ ([("a", [Val.i 1, Val.i 2])] : List (String × List Val)),
        p.2.length = c6w.X.r) ∧
      (([5, 7] : List Int).length = c6w.X.r) ∧
      setSmpFromMapping c6w [("a", [Val.i 1, Val.i 2])]
        = Except.ok { c6w with smp := ⟨SMP_NAMES,
            ([("a", [Val.i 1, Val.i 2])] : List (String × List Val)).map
              (fun p => (p.1, colOfList p.2))
              ++ [(SMP_NAMES, ⟨Dty.int64, ([5, 7] : List Int).map Val.i⟩)]⟩ } :=
  ⟨by decide, by decide, by decide, by decide, by decide,
   c6_preserves_integer_labels c6w [5, 7] Dty.int64 [("a", [Val.i 1, Val.i 2])]
     (by decide) (by decide) (by decide) (by decide) (by decide)⟩

/-- Witness for C7's amended theorem: the labelled 2x3 container
round-trips through a double transpose. -/
theorem c7_double_transpose_id_witness :
    (¬ c7w.storage_type = StorageType.Masked) ∧
      c7w.smp.nameCol = SMP_NAMES ∧
      c7w.var.nameCol = VAR_NAMES ∧
      dupFree (c7w.smp.fields.map (fun p => p.1)) = true ∧
      dupFree (c7w.var.fields.map (fun p => p.1)) = true ∧
      (∀ p ∈ c7w.smp.fields, ¬ p.1 = VAR_NAMES) ∧
      (∀ p ∈ c7w.var.fields, ¬ p.1 = SMP_NAMES) ∧
      c7w.X.WF ∧
      recLen c7w.smp = c7w.X.r ∧
      recLen c7w.var = c7w.X.c ∧
      ∃ t : AnnData, transpose c7w = Except.ok t
        ∧ transpose t = Except.ok c7w :=
  ⟨by decide, by decide, by decide, by decide, by decide, by decide,
   by decide, by decide, by decide, by decide,
   c7_double_transpose_id c7w (by decide) (by decide) (by decide) (by decide)
     (by decide) (by decide) (by decide) (by decide) (by decide) (by decide)⟩

/-- Witness for C8: looking up the absent row label `'X'` on the labelled
container fails with the lookup `IndexError`. -/
theorem c8_unknown_label_errors_witness :
    (lookupCol c7w.smp SMP_NAMES
        = some ⟨Dty.str, [Val.s "A", Val.s "B"]⟩) ∧
      ((⟨Dty.str, [Val.s "A", Val.s "B"]⟩ : Col).vals.findIdx?
        (fun x => x = Val.s "X") = Option.none) ∧
      (lookupCol c7w.var VAR_NAMES
        = some ⟨Dty.str, [Val.s "a", Val.s "b", Val.s "c"]⟩) ∧
      ((⟨Dty.str, [Val.s "a", Val.s "b", Val.s "c"]⟩ : Col).vals.findIdx?
        (fun x => x = Val.s "X") = Option.none) ∧
      getitem c7w (Index.pair (Sel.scalar (Ix.s "X")) sliceAll)
        = Except.error Err.indexErr :=
  ⟨by decide, by decide, by decide, by decide,
   (c8_unknown_label_errors c7w ⟨Dty.str, [Val.s "A", Val.s "B"]⟩
     ⟨Dty.str, [Val.s "a", Val.s "b", Val.s "c"]⟩ "X" (Val.i 0)
     (by decide) (by decide) (by decide) (by decide)).1⟩

/-- Witness for C9: a length-2 array object at address 0 is reshaped in
place to 2x1 and aliased by the constructed container. -/
theorem c9_inplace_reshape_and_alias_witness :
    ((⟨[⟨[2], [Val.i 9, Val.i 8]⟩]⟩ : NpHeap).arrs.get? 0
        = some ⟨[2], [Val.i 9, Val.i 8]⟩) ∧
      (mkAnnDataRef ⟨[⟨[2], [Val.i 9, Val.i 8]⟩]⟩ 0 TblSource.none
          TblSource.none
        = Except.ok (⟨(⟨[⟨[2], [Val.i 9, Val.i 8]⟩]⟩ : NpHeap).arrs.set 0
              ⟨[2, 1], [Val.i 9, Val.i 8]⟩⟩,
            ⟨StorageType.Array, 0,
             ⟨SMP_NAMES, [(SMP_NAMES, arangeCol 2)]⟩,
             ⟨VAR_NAMES, [(VAR_NAMES, arangeCol 1)]⟩⟩) ∧
        ((⟨[⟨[2], [Val.i 9, Val.i 8]⟩]⟩ : NpHeap).arrs.set 0
            ⟨[2, 1], [Val.i 9, Val.i 8]⟩).get? 0
          = some ⟨[2, 1], [Val.i 9, Val.i 8]⟩) :=
  ⟨by decide,
   c9_inplace_reshape_and_alias ⟨[⟨[2], [Val.i 9, Val.i 8]⟩]⟩ 0 2
     [Val.i 9, Val.i 8] (by decide)⟩

/-- Witness for C10: on `AnnData([[1,2,3],[4,5,6]])`, `5` normalizes to
`slice(5, 6, 1)` and indexing the row axis with `-1` yields a zero-row
sub-container with all three columns intact. -/
theorem c10_neg_one_selects_empty_witness :
    (lookupCol c10w.smp SMP_NAMES = some (arangeCol 2)) ∧
      (lookupCol c10w.var VAR_NAMES = some (arangeCol 3)) ∧
      (¬ c10w.var.fields = []) ∧
      (normalizeIndex (arangeCol 2) (Sel.scalar (Ix.i 5))
          = Except.ok (NSel.slice (some 5) (some 6) (some 1)) ∧
        ∃ c : AnnData,
          getitem c10w (Index.pair (Sel.scalar (Ix.i (-1))) sliceAll)
              = Except.ok (GetRes.sub c) ∧
            c.X.r = 0 ∧ c.X.c = c10w.X.c ∧ recLen c.smp = 0 ∧
            recLen c.var = c10w.X.c) :=
  ⟨by decide, by decide, by decide,
   c10_neg_one_selects_empty (arangeCol 2) 5 c10w (arangeCol 2) (arangeCol 3)
     (by decide) (by decide) (by decide)⟩

end Scanpy
